import Mathlib

/-!
Verification development for the rustcurrent concurrent-container library.

The Rust sources embedded here are:
  src/structures/hash_map/atomic_markable.rs  (tagged pointer cell, trie nodes)
  src/structures/hash_map/hash_map.rs         (wait-free hash trie map)
  src/structures/seg_queue_old.rs             (k-FIFO segmented queue)

Machine words (usize) are modelled as Nat with an explicit bound of 2^64 where
overflow or truncation matters; raw pointers are modelled as their usize words.
All operations are embedded with their sequential (single-thread, deterministic
compare-exchange) semantics, except where a function's interesting behaviour is
concurrent: there every atomic read and compare-exchange receives its own
observed value as an explicit parameter.
-/

namespace RCV

/-- Word size of the target platform: the Rust code stores pointers in an
AtomicUsize, a 64-bit machine word. -/
def USIZE : Nat := 2 ^ 64

/-- Tagging helper from atomic_markable.rs lines 37-40: mark sets bit 0
(the mark flag) of the pointer word, via ptr_usize | 0x1. -/
def mark (p : Nat) : Nat := p ||| 1

/-- Tagging helper from atomic_markable.rs lines 22-25: unmark clears bit 0 of
the word via ptr_usize & !(0x1); on a 64-bit usize the mask !(0x1) is 2^64 - 2. -/
def unmark (p : Nat) : Nat := p &&& (USIZE - 2)

/-- Tagging helper from atomic_markable.rs lines 32-35: mark_array_node sets
bit 1 (the array-node flag) via ptr_usize | 0x2. -/
def mark_array_node (p : Nat) : Nat := p ||| 2

/-- Tagging helper from atomic_markable.rs lines 27-30: unmark_array_node clears
bit 1 via ptr_usize & !(0x2); on a 64-bit usize the mask !(0x2) is 2^64 - 3. -/
def unmark_array_node (p : Nat) : Nat := p &&& (USIZE - 3)

/-- Predicate from atomic_markable.rs lines 6-12: a word is marked when
ptr_usize & 0x1 is nonzero. -/
def is_marked (p : Nat) : Bool := p &&& 1 != 0

/-- Predicate from atomic_markable.rs lines 14-20: a word carries the array-node
flag when (ptr_usize & 0x2) >> 1 is nonzero. -/
def is_array_node (p : Nat) : Bool := (p &&& 2) >>> 1 != 0

/-- Model of AtomicMarkablePtr.compare_exchange (atomic_markable.rs lines
80-87) as a state-passing function over the cell's word, with the
sequential deterministic semantics of the underlying
AtomicUsize.compare_exchange: the result pairs the new cell contents with
Ok (previous word) on success and Err (observed word) on failure. -/
def amp_compare_exchange (cell old nxt : Nat) : Nat × Except Nat Nat :=
  if cell = old then (nxt, Except.ok cell) else (cell, Except.error cell)

/-- Model of AtomicMarkablePtr.compare_exchange_weak (atomic_markable.rs lines
71-78): the Rust wrapper discards the word returned by the underlying atomic
and answers Ok(old) on success and Err(new) on failure. -/
def amp_compare_exchange_weak (cell old nxt : Nat) : Nat × Except Nat Nat :=
  if cell = old then (nxt, Except.ok old) else (cell, Except.error nxt)

/-- Pointwise update of a function heap, standing in for a store through a
pointer. -/
def upd {α : Type} (f : Nat → α) (a : Nat) (v : α) : Nat → α :=
  fun x => if x = a then v else f x

/-- Trie node from atomic_markable.rs lines 129-239: a DataNode stores the
finalized 64-bit hash (field key) and a payload, an ArrayNode stores a vector
of cells; each cell is modelled by the word its AtomicUsize holds. -/
inductive MNode (V : Type) where
  | data (hash : Nat) (value : V)
  | array (cells : List Nat)
deriving DecidableEq

/-- Sequential state of the hash map (hash_map.rs lines 15-24): the heap of
boxed nodes addressed by their pointer words, an allocation counter, and the
64-cell head vector. Heap allocations are at least 4-byte aligned, modelled by
giving the n-th allocation the address 4*n with the counter starting at 1, so
every allocated word is nonzero and has both tag bits clear. -/
structure MapState (V : Type) where
  heap : Nat → Option (MNode V)
  fresh : Nat
  head : List Nat

/-- Allocation of a boxed trie node (Box::into_raw (Box::new ..)). -/
def mAlloc {V : Type} (s : MapState V) (n : MNode V) : Nat × MapState V :=
  (4 * s.fresh, ⟨upd s.heap (4 * s.fresh) (some n), s.fresh + 1, s.head⟩)

/-- Reference to the bucket the insert loop currently walks: the head vector
or the cell array of a heap array node. -/
inductive BRef where
  | hd
  | node (addr : Nat)
deriving DecidableEq

/-- Cells of the referenced bucket. -/
def getBucket {V : Type} (s : MapState V) : BRef → List Nat
  | BRef.hd => s.head
  | BRef.node a =>
    match s.heap a with
    | some (MNode.array cs) => cs
    | _ => []

/-- Store a word into one cell of the referenced bucket. -/
def setCell {V : Type} (s : MapState V) (b : BRef) (pos w : Nat) : MapState V :=
  match b with
  | BRef.hd => ⟨s.heap, s.fresh, s.head.set pos w⟩
  | BRef.node a =>
    match s.heap a with
    | some (MNode.array cs) =>
      ⟨upd s.heap a (some (MNode.array (cs.set pos w))), s.fresh, s.head⟩
    | _ => s

/-- Position used by insert at every trie level (hash_map.rs lines 93 and
164): pos = hash & (bucket.len() - 1). The head vector and every array node
both have 64 cells (HEAD_SIZE = 64 and ArrayNode::new(self.head_size)), so the
mask is 63. The enclosing loop's level shift r is a parameter here only so the
definition can be compared with the specification's per-depth routing: the
source expression does not depend on it — the local mut_hash = hash >>
self.shift_step of line 94 is assigned and never read. -/
def insertLevelPos (hash r : Nat) : Nat := hash % 64

/-- Modelled from the spec: the slot index the specification routes to at
trie depth d, namely bits starting at d*S of the 64-bit hash with S = 6:
pos = (h >> (depth * S)) & (ARITY - 1). Comparison definition for C1, written
from the spec text, not from the source. -/
def specLevelPos (hash d : Nat) : Nat := (hash >>> (6 * d)) % 64

/-- Pre-placement index computed by expand_map (hash_map.rs line 68):
new_pos = (hash >> (shift_amount + self.shift_step)) & (self.head_size - 1),
with shift_step = 6 and head_size = 64. -/
def expandNewPos (hash r : Nat) : Nat := (hash >>> (r + 6)) % 64

/-- Sequential model of expand_map (hash_map.rs lines 50-82). The cell at pos
is read (get_ptr().unwrap() panics on an empty cell); an already-flagged array
word is returned as is; otherwise a fresh 64-cell array node is allocated, the
observed leaf word is pre-stored at expandNewPos of the leaf's hash, and the
compare-exchange publishes the raw array address — the source applies no
mark_array_node to it. Err carries a panic message. -/
def expand_map {V : Type} (s : MapState V) (b : BRef) (pos r : Nat) :
    MapState V × Except String Nat :=
  let w := (getBucket s b).getD pos 0
  if w = 0 then (s, Except.error "called unwrap on a None value")
  else if is_array_node w then (s, Except.ok w)
  else
    match s.heap w with
    | some (MNode.data h _) =>
      let cells := (List.replicate 64 0).set (expandNewPos h r) w
      let (arrAddr, s1) := mAlloc s (MNode.array cells)
      (setCell s1 b pos arrAddr, Except.ok arrAddr)
    | some (MNode.array _) => (s, Except.error "Unexpected array node!")
    | none => (s, Except.error "dereference of an invalid pointer")

/-- Sequential model of try_insert (hash_map.rs lines 179-198): allocate a
data node and compare-exchange it over the expected old word; on failure the
box is reclaimed and the value handed back (false). -/
def try_insert {V : Type} (s : MapState V) (b : BRef) (pos old hash : Nat)
    (v : V) : MapState V × Bool :=
  let (dp, s1) := mAlloc s (MNode.data hash v)
  if (getBucket s1 b).getD pos 0 = old then (setCell s1 b pos dp, true)
  else (s1, false)

/-- Outcome of an insert: success, the duplicate-key error (Err carrying the
key and value back to the caller), a Rust panic with its message, or fuel
exhaustion of the model's loop counter. -/
inductive IRes where
  | ok
  | dup
  | panicked (msg : String)
  | fuelOut
deriving DecidableEq

/-- Outcome of one run of insert's inner loop: a final result, or a descent
into a deeper bucket. -/
inductive IStep where
  | finished (r : IRes)
  | descend (b : BRef)

/-- Sequential model of the inner loop of insert (hash_map.rs lines 98-160).
The arguments after the fuel are the state, the hash, the value, the current
bucket, the level shift r, the cell index pos, fail_count, and the node word
last read from the cell. Hazard-pointer protect calls have no effect in the
sequential model; every re-read observes the current cell. -/
def insertInner {V : Type} :
    Nat → MapState V → Nat → V → BRef → Nat → Nat → Nat → Option Nat →
    MapState V × IStep
  | 0, s, _, _, _, _, _, _, _ => (s, IStep.finished IRes.fuelOut)
  | Nat.succ fuel, s, hash, v, b, r, pos, failCount, nodeIn =>
    match (if failCount > 10 then
            match expand_map s b pos r with
            | (s1, Except.ok w) => Except.ok (s1, some w)
            | (s1, Except.error m) => Except.error (s1, m)
          else Except.ok (s, nodeIn)) with
    | Except.error (s1, m) => (s1, IStep.finished (IRes.panicked m))
    | Except.ok (s1, node) =>
      match node with
      | none =>
        match try_insert s1 b pos 0 hash v with
        | (s2, true) => (s2, IStep.finished IRes.ok)
        | (s2, false) => insertInner fuel s2 hash v b r pos failCount none
      | some w =>
        match (if is_marked w then expand_map s1 b pos r
               else (s1, Except.ok w)) with
        | (s2, Except.error m) => (s2, IStep.finished (IRes.panicked m))
        | (s2, Except.ok _) =>
          if is_array_node w then
            match s2.heap w with
            | some (MNode.data _ _) =>
              (s2, IStep.finished (IRes.panicked "Unexpected data node"))
            | some (MNode.array _) => (s2, IStep.descend (BRef.node w))
            | none =>
              (s2, IStep.finished (IRes.panicked "dereference of an invalid pointer"))
          else
            let node2 := (getBucket s2 b).getD pos 0
            if node2 = 0 ∨ node2 ≠ w then
              insertInner fuel s2 hash v b r pos (failCount + 1)
                (if node2 = 0 then none else some node2)
            else
              match s2.heap w with
              | some (MNode.array _) =>
                (s2, IStep.finished (IRes.panicked "Unexpected array node!"))
              | some (MNode.data h _) =>
                if h = hash then (s2, IStep.finished IRes.dup)
                else
                  match expand_map s2 b pos r with
                  | (s3, Except.error m) => (s3, IStep.finished (IRes.panicked m))
                  | (s3, Except.ok w2) =>
                    if is_array_node w2 then
                      match s3.heap w2 with
                      | some (MNode.array _) => (s3, IStep.descend (BRef.node w2))
                      | some (MNode.data _ _) =>
                        (s3, IStep.finished (IRes.panicked "Unexpected data node!"))
                      | none =>
                        (s3, IStep.finished (IRes.panicked "dereference of an invalid pointer"))
                    else
                      insertInner fuel s3 hash v b r pos (failCount + 1)
                        (some w2)
              | none =>
                (s2, IStep.finished (IRes.panicked "dereference of an invalid pointer"))

/-- The word of the cell at pos of bucket b, as the Option that get_ptr
returns (atomic_markable.rs lines 64-69): None for the all-zero empty cell. -/
def readCell {V : Type} (s : MapState V) (b : BRef) (pos : Nat) : Option Nat :=
  match (getBucket s b).getD pos 0 with
  | 0 => none
  | w => some w

/-- Code past the level loop of insert (hash_map.rs lines 164-176): at the
bottom of the trie, insert into an empty cell via try_insert, and report the
duplicate error for any occupied cell. -/
def insertBottom {V : Type} (s : MapState V) (hash : Nat) (v : V) (b : BRef)
    (r : Nat) : MapState V × IRes :=
  match readCell s b (insertLevelPos hash r) with
  | none =>
    match try_insert s b (insertLevelPos hash r) 0 hash v with
    | (s1, true) => (s1, IRes.ok)
    | (s1, false) => (s1, IRes.dup)
  | some _ => (s, IRes.dup)

/-- Sequential model of insert's outer level loop (hash_map.rs lines 92-176):
while r < KEY_SIZE - shift_step = 58 run the inner loop at the current bucket,
descending on an array node; past the last level fall through to the bottom
code of lines 164-176. The first fuel bounds descents, the second the inner
loop. -/
def insertOuter {V : Type} :
    Nat → Nat → MapState V → Nat → V → BRef → Nat → MapState V × IRes
  | 0, fuelI, s, hash, v, b, r =>
    if r < 58 then
      match insertInner fuelI s hash v b r (insertLevelPos hash r) 0
          (readCell s b (insertLevelPos hash r)) with
      | (s1, IStep.finished res) => (s1, res)
      | (s1, IStep.descend _) => (s1, IRes.fuelOut)
    else insertBottom s hash v b r
  | Nat.succ f, fuelI, s, hash, v, b, r =>
    if r < 58 then
      match insertInner fuelI s hash v b r (insertLevelPos hash r) 0
          (readCell s b (insertLevelPos hash r)) with
      | (s1, IStep.finished res) => (s1, res)
      | (s1, IStep.descend b1) => insertOuter f fuelI s1 hash v b1 (r + 6)
    else insertBottom s hash v b r

/-- A fresh hash map (hash_map.rs lines 28-41): 64 empty head cells. -/
def mapNew (V : Type) : MapState V :=
  ⟨fun _ => none, 1, List.replicate 64 0⟩

/-- Insert keyed by the 64-bit hash (the map stores only the finalized hash,
DataNode.key; keys enter the structure through their hash alone). Fuel is
ample for the source's bounded level loop. -/
def mapInsert {V : Type} (s : MapState V) (hash : Nat) (v : V) :
    MapState V × IRes :=
  insertOuter 64 64 s hash v BRef.hd 0

/-- Drop for AtomicMarkablePtr (atomic_markable.rs lines 102-115): the cell
frees the doubly-unmarked payload word when it is non-null. -/
def cellDropFree (w : Nat) : Option Nat :=
  let p := unmark (unmark_array_node w)
  if p = 0 then none else some p

/-- Pointers freed by dropping a boxed trie node: a data node frees nothing
beyond itself, an array node drops its vector of cells and each cell's Drop
frees its payload. -/
def nodeDropFrees {V : Type} : MNode V → List Nat
  | MNode.data _ _ => []
  | MNode.array cells => cells.filterMap cellDropFree

/-- Pointers freed by Box::from_raw(array_node_ptr) on expand_map's CAS
failure path (hash_map.rs lines 76-79): the array node's own storage and, via
the Drop of every cell, each non-null payload its slots hold. -/
def expandFailFrees {V : Type} (arrAddr : Nat) (n : MNode V) : List Nat :=
  arrAddr :: nodeDropFrees n

/-- Observations made by one run of the segmented queue's commit
(seg_queue_old.rs lines 110-155). Commit runs under concurrency, so every
atomic access receives the value it observes as an explicit parameter:
slotAtCheck is the data[index] load of line 111, headObs the head load of
line 115, deleted1 the deleted load of line 118, slotAtCas1 the slot value
when the rollback CAS of line 119 executes, headAtCas the head value when the
stabilizing self-CAS of line 127 executes, slotAtCas2 the slot value at the
rollback CAS of line 133, deleted2 the deleted load of line 144, and
slotAtCas3 the slot value at the rollback CAS of line 147. -/
structure CommitObs where
  slotAtCheck : Nat
  headObs : Nat
  deleted1 : Bool
  slotAtCas1 : Nat
  headAtCas : Nat
  slotAtCas2 : Nat
  deleted2 : Bool
  slotAtCas3 : Nat

/-- Model of commit (seg_queue_old.rs lines 110-155) over its observations.
The result pairs commit's return value with the slot write it performed: some
nonePtr when one of its rollback compare-exchanges succeeded (the slot now
holds the fresh sentinel nonePtr), none when commit left the slot alone. The
sentinel allocation of line 116 and the frees of the unused sentinel are not
modelled; nonePtr is the allocated sentinel's address. -/
def commit_obs (o : CommitObs) (tailOld itemPtr nonePtr : Nat) :
    Bool × Option Nat :=
  if o.slotAtCheck ≠ itemPtr then (true, none)
  else if o.deleted1 then
    if o.slotAtCas1 = itemPtr then (false, some nonePtr) else (true, none)
  else if o.headObs = tailOld then
    if o.headAtCas = o.headObs then (true, none)
    else if o.slotAtCas2 = itemPtr then (false, some nonePtr) else (true, none)
  else if o.deleted2 = false then (true, none)
  else if o.slotAtCas3 = itemPtr then (false, some nonePtr) else (true, none)

/-- A queue segment (seg_queue_old.rs lines 337-341): k slot cells each
holding the address of a heap box of an optional payload, the next pointer,
and the deleted flag. -/
structure PSeg where
  slots : List Nat
  next : Nat
  deleted : Bool

/-- Sequential pointer-level state of the segmented queue (seg_queue_old.rs
lines 24-29): the heap of payload/sentinel boxes (boxH p is the Option the box
at address p holds), the heap of segments, the head and tail pointers, and
allocation counters for the two address spaces, both starting at 1 so every
allocated address is non-null. Deallocation is not modelled; addresses are
never reused. -/
structure PQueue (T : Type) where
  boxH : Nat → Option T
  segH : Nat → PSeg
  head : Nat
  tail : Nat
  freshB : Nat
  freshS : Nat
  k : Nat

/-- Box::into_raw (Box::new v): allocate a fresh box. -/
def allocBox {T : Type} (s : PQueue T) (v : Option T) : Nat × PQueue T :=
  (s.freshB, { s with boxH := upd s.boxH s.freshB v, freshB := s.freshB + 1 })

/-- The word segment a's slot i holds. -/
def getSlot {T : Type} (s : PQueue T) (a i : Nat) : Nat :=
  (s.segH a).slots.getD i 0

/-- Store word w into segment a's slot i. -/
def setSlot {T : Type} (s : PQueue T) (a i w : Nat) : PQueue T :=
  { s with segH := upd s.segH a (PSeg.mk ((s.segH a).slots.set i w) (s.segH a).next (s.segH a).deleted) }

/-- Store v through the box pointer p (ptr::replace and slot writes). -/
def writeBox {T : Type} (s : PQueue T) (p : Nat) (v : Option T) : PQueue T :=
  { s with boxH := upd s.boxH p v }

/-- Store the next pointer of segment a. -/
def setNext {T : Type} (s : PQueue T) (a nx : Nat) : PQueue T :=
  { s with segH := upd s.segH a (PSeg.mk (s.segH a).slots nx (s.segH a).deleted) }

/-- Set the deleted flag of segment a. -/
def setDeleted {T : Type} (s : PQueue T) (a : Nat) : PQueue T :=
  { s with segH := upd s.segH a (PSeg.mk (s.segH a).slots (s.segH a).next true) }

/-- Allocate n sentinel boxes each containing None (the loop of
Segment::new, seg_queue_old.rs lines 345-348). -/
def allocSentinels {T : Type} : Nat → PQueue T → List Nat × PQueue T
  | 0, s => ([], s)
  | Nat.succ n, s =>
    let (p, s1) := allocBox s none
    let (ps, s2) := allocSentinels n s1
    (p :: ps, s2)

/-- Segment::new (seg_queue_old.rs lines 343-355): a fresh segment whose k
slots each point at a fresh heap box containing None, next null, deleted
false. -/
def segNew {T : Type} (s : PQueue T) : Nat × PQueue T :=
  let (ps, s1) := allocSentinels s.k s
  (s1.freshS,
    { s1 with
        segH := upd s1.segH s1.freshS (PSeg.mk ps 0 false)
        freshS := s1.freshS + 1 })

/-- SegQueueOld::new (seg_queue_old.rs lines 37-45): one initial segment,
head and tail both pointing at it. -/
def queueNew (T : Type) (k : Nat) : PQueue T :=
  let s0 : PQueue T := PQueue.mk (fun _ => none) (fun _ => PSeg.mk [] 0 false) 0 0 1 1 k
  let (a, s1) := segNew s0
  { s1 with head := a, tail := a }

/-- find_empty_slot (seg_queue_old.rs lines 223-236): scan the slots of the
segment at a in the given probe order for one whose box holds None, returning
the slot index and the observed box pointer. -/
def find_empty_slot {T : Type} (s : PQueue T) (a : Nat) :
    List Nat → Option (Nat × Nat)
  | [] => none
  | i :: rest =>
    match s.boxH (getSlot s a i) with
    | some _ => find_empty_slot s a rest
    | none => some (i, getSlot s a i)

/-- find_item (seg_queue_old.rs lines 238-251): scan the slots of the segment
at a in the given probe order for one whose box holds a payload. -/
def find_item {T : Type} (s : PQueue T) (a : Nat) :
    List Nat → Option (Nat × Nat)
  | [] => none
  | i :: rest =>
    match s.boxH (getSlot s a i) with
    | some _ => some (i, getSlot s a i)
    | none => find_item s a rest

/-- advance_tail (seg_queue_old.rs lines 253-273), sequential semantics: when
the tail still equals the caller's old tail, either link and publish a fresh
segment (when next is null) or swing the tail to the existing next. -/
def advance_tail {T : Type} (s : PQueue T) (oldTail : Nat) : PQueue T :=
  if s.tail = oldTail then
    let nx := (s.segH oldTail).next
    if s.tail = oldTail then
      if nx = 0 then
        let (a, s1) := segNew s
        let s2 := setNext s1 oldTail a
        { s2 with tail := a }
      else { s with tail := nx }
    else s
  else s

/-- advance_head (seg_queue_old.rs lines 275-306), sequential semantics: when
the queue has a single segment do nothing; otherwise keep the tail ahead of
the head if they coincide, swing the head to head.next, and mark the unlinked
segment deleted (its retirement to the hazard manager is not modelled). -/
def advance_head {T : Type} (s : PQueue T) (oldHead : Nat) : PQueue T :=
  if s.head = oldHead then
    let tl := s.tail
    let tailNext := (s.segH tl).next
    let headNext := (s.segH oldHead).next
    if s.head = oldHead then
      if tl = oldHead ∧ tailNext = 0 then s
      else
        let s1 := if tl = oldHead then
            (if s.tail = tl then { s with tail := tailNext } else s)
          else s
        let s2 := { s1 with head := headNext }
        setDeleted s2 oldHead
    else s
  else s

/-- Sequential instantiation of commit (seg_queue_old.rs lines 110-155) as
called by try_enqueue: every observation reads the current state and the
compare-exchanges are deterministic. The sentinel box of line 116 is
allocated before the branches; the frees of an unused sentinel are
deallocations and not modelled. -/
def commitSeq {T : Type} (s : PQueue T) (tailOld itemPtr i : Nat) :
    PQueue T × Bool :=
  if getSlot s tailOld i ≠ itemPtr then (s, true)
  else
    let hd := s.head
    let (nonePtr, s1) := allocBox s none
    if (s1.segH tailOld).deleted then
      (if getSlot s1 tailOld i = itemPtr then
        (setSlot s1 tailOld i nonePtr, false)
      else (s1, true))
    else if hd = tailOld then
      (if s1.head = hd then (s1, true)
       else if getSlot s1 tailOld i = itemPtr then
        (setSlot s1 tailOld i nonePtr, false)
       else (s1, true))
    else if (s1.segH tailOld).deleted = false then (s1, true)
    else if getSlot s1 tailOld i = itemPtr then
      (setSlot s1 tailOld i nonePtr, false)
    else (s1, true)

/-- try_enqueue (seg_queue_old.rs lines 65-108), sequential semantics: probe
the tail segment in the given order for an empty slot, compare-exchange the
payload box in, and run commit; false asks the caller to retry with the same
payload box (after advancing the tail when no empty slot was found). -/
def try_enqueue {T : Type} (s : PQueue T) (dataPtr : Nat) (order : List Nat) :
    PQueue T × Bool :=
  let tl := s.tail
  if tl = s.tail then
    match find_empty_slot s tl order with
    | some (i, oldPtr) =>
      if tl = s.tail then
        if getSlot s tl i = oldPtr then
          let s1 := setSlot s tl i dataPtr
          match commitSeq s1 tl dataPtr i with
          | (s2, true) => (s2, true)
          | (s2, false) => (s2, false)
        else (s, false)
      else (s, false)
    | none => (advance_tail s tl, false)
  else (s, false)

/-- Outcome of one try_dequeue attempt: retry, or return (Ok of the source),
carrying Some payload or the queue-empty None. -/
inductive DeqOut (T : Type) where
  | retry
  | done (v : Option T)

/-- try_dequeue (seg_queue_old.rs lines 175-221), sequential semantics: probe
the head segment for an occupied slot; when found, nudge the tail if it
coincides with the head, swap in a fresh sentinel and take the payload; when
the segment is empty, return None if head.next is null and otherwise advance
the head and retry. -/
def try_dequeue {T : Type} (s : PQueue T) (order : List Nat) :
    PQueue T × DeqOut T :=
  let hd := s.head
  if hd = s.head then
    let found := find_item s hd order
    let tl := s.tail
    if hd = s.head then
      match found with
      | some (i, itemPtr) =>
        let s1 := if hd = tl then advance_tail s tl else s
        let (nonePtr, s2) := allocBox s1 none
        if getSlot s2 hd i = itemPtr then
          let v := s2.boxH itemPtr
          let s3 := setSlot s2 hd i nonePtr
          let s4 := writeBox s3 itemPtr none
          (s4, DeqOut.done v)
        else (s2, DeqOut.retry)
      | none =>
        if (s.segH hd).next = 0 then (s, DeqOut.done none)
        else (advance_head s hd, DeqOut.retry)
    else (s, DeqOut.retry)
  else (s, DeqOut.retry)

/-- The retry loop of enqueue (seg_queue_old.rs lines 57-62), fuelled; os
supplies the fresh probe order each attempt shuffles. -/
def enqueueLoop {T : Type} :
    Nat → PQueue T → Nat → (Nat → List Nat) → Option (PQueue T)
  | 0, _, _, _ => none
  | Nat.succ n, s, dataPtr, os =>
    match try_enqueue s dataPtr (os 0) with
    | (s1, true) => some s1
    | (s1, false) => enqueueLoop n s1 dataPtr (fun j => os (j + 1))

/-- enqueue (seg_queue_old.rs lines 53-63): box the payload once, then retry
try_enqueue with that box until it commits. -/
def enqueue {T : Type} (fuel : Nat) (s : PQueue T) (v : T)
    (os : Nat → List Nat) : Option (PQueue T) :=
  let (p, s1) := allocBox s (some v)
  enqueueLoop fuel s1 p os

/-- The retry loop of dequeue (seg_queue_old.rs lines 165-173), fuelled. -/
def dequeueLoop {T : Type} :
    Nat → PQueue T → (Nat → List Nat) → Option (PQueue T × Option T)
  | 0, _, _ => none
  | Nat.succ n, s, os =>
    match try_dequeue s (os 0) with
    | (s1, DeqOut.done v) => some (s1, v)
    | (s1, DeqOut.retry) => dequeueLoop n s1 (fun j => os (j + 1))

/-- C8's invariant: every slot of every allocated segment (addresses run from
1 up to freshS) holds a non-null pointer. -/
def SlotsNonNull {T : Type} (s : PQueue T) : Prop :=
  ∀ a, 1 ≤ a → a < s.freshS → ∀ p, p ∈ (s.segH a).slots → p ≠ 0

/-- Well-formedness bundled with C8's invariant: both allocation counters are
at least 1 (so fresh addresses are non-null), and all slots are non-null. -/
def QInv {T : Type} (s : PQueue T) : Prop :=
  1 ≤ s.freshB ∧ 1 ≤ s.freshS ∧ SlotsNonNull s

/-- The head-to-payload view of a segment: slot i's entry is the Option its
box currently holds. -/
def segView {T : Type} (s : PQueue T) (a : Nat) : List (Option T) :=
  (s.segH a).slots.map s.boxH

/-- Shape of the queue during the first four enqueues of the k = 4 scenario:
head and tail both at the single live segment (address 1), its slots distinct
box addresses below the allocation counter, and the occupied boxes holding
exactly the values cnt (as a multiset). -/
structure EnqShape (s : PQueue Nat) (cnt : List Nat) : Prop where
  hd : s.head = 1
  tl : s.tail = 1
  fS : s.freshS = 2
  kk : s.k = 4
  nx : (s.segH 1).next = 0
  del : (s.segH 1).deleted = false
  len : (s.segH 1).slots.length = 4
  fB : 1 ≤ s.freshB
  bnd : ∀ q, q ∈ (s.segH 1).slots → q < s.freshB
  nd : (s.segH 1).slots.Nodup
  cont : ((segView s 1).filterMap id).Perm cnt

/-- Shape of the queue after the fifth enqueue of the k = 4 scenario: the
original segment (address 1, now holding c1) is followed by a second live
segment (address 2, holding c2) that head still trails. -/
structure TwoShape (s : PQueue Nat) (c1 c2 : List Nat) : Prop where
  hd : s.head = 1
  tl : s.tail = 2
  fS : s.freshS = 3
  kk : s.k = 4
  nx1 : (s.segH 1).next = 2
  del1 : (s.segH 1).deleted = false
  len1 : (s.segH 1).slots.length = 4
  bnd1 : ∀ q, q ∈ (s.segH 1).slots → q < s.freshB
  nd1 : (s.segH 1).slots.Nodup
  cont1 : ((segView s 1).filterMap id).Perm c1
  nx2 : (s.segH 2).next = 0
  del2 : (s.segH 2).deleted = false
  len2 : (s.segH 2).slots.length = 4
  bnd2 : ∀ q, q ∈ (s.segH 2).slots → q < s.freshB
  nd2 : (s.segH 2).slots.Nodup
  cont2 : ((segView s 2).filterMap id).Perm c2
  disj : ∀ q, q ∈ (s.segH 1).slots → q ∉ (s.segH 2).slots

theorem testBit_usize_sub_two (i : Nat) :
    (USIZE - 2).testBit i = (decide (0 < i) && decide (i < 64)) := by
  have h : USIZE - 2 = 2 * (2 ^ 63 - 1) := by norm_num [USIZE]
  rw [h]
  cases i with
  | zero => simp
  | succ j =>
    have hdiv : 2 * (2 ^ 63 - 1) / 2 = 2 ^ 63 - 1 := by omega
    rw [Nat.testBit_succ, hdiv, Nat.testBit_two_pow_sub_one]
    rcases Nat.lt_or_ge j 63 with h63 | h63
    · rw [decide_eq_true h63, decide_eq_true (show 0 < j + 1 by omega),
        decide_eq_true (show j + 1 < 64 by omega)]
      rfl
    · rw [decide_eq_false (show ¬ j < 63 by omega),
        decide_eq_false (show ¬ j + 1 < 64 by omega)]
      simp

theorem testBit_one_eq (i : Nat) : (1 : Nat).testBit i = decide (i = 0) := by
  cases i with
  | zero => decide
  | succ j =>
    rw [Nat.testBit_succ]
    simp

/-- C5: the tagged-cell laws hold for the pure bit helpers of
atomic_markable.rs: for every pointer word, is_marked (mark p) is true,
is_array_node (mark_array_node p) is true, and the mark and array-node flags
commute; and for every pointer word below 2^64 that is aligned to at least 4
bytes, unmark (mark p) = p. -/
theorem tagged_cell_laws (p : Nat) :
    (p < USIZE → p % 4 = 0 → unmark (mark p) = p) ∧
    is_marked (mark p) = true ∧
    is_array_node (mark_array_node p) = true ∧
    mark (mark_array_node p) = mark_array_node (mark p) := by
  refine ⟨?_, ?_, ?_, ?_⟩
  · intro hlt hal
    apply Nat.eq_of_testBit_eq
    intro i
    rw [unmark, mark, Nat.testBit_and, Nat.testBit_or, testBit_usize_sub_two,
      testBit_one_eq]
    rcases Nat.eq_zero_or_pos i with h0 | h0
    · subst h0
      have hp : p.testBit 0 = false := by
        rw [Nat.testBit_zero]
        exact decide_eq_false (by omega)
      rw [hp, decide_eq_false (show ¬ (0 : Nat) < 0 by omega)]
      simp
    · rcases Nat.lt_or_ge i 64 with h64 | h64
      · rw [decide_eq_false (Nat.ne_of_gt h0), decide_eq_true h0, decide_eq_true h64]
        simp
      · have hbit : p.testBit i = false :=
          Nat.testBit_lt_two_pow
            (Nat.lt_of_lt_of_le hlt (Nat.pow_le_pow_right (by norm_num) h64))
        rw [hbit, decide_eq_false (show ¬ i < 64 by omega),
          decide_eq_false (Nat.ne_of_gt h0)]
        simp
  · have h1 : (p ||| 1) % 2 = 1 := by
      have h0 : (p ||| 1).testBit 0 = true := by
        rw [Nat.testBit_or, testBit_one_eq]
        simp
      rw [Nat.testBit_zero] at h0
      exact of_decide_eq_true h0
    show ((p ||| 1) &&& 1 != 0) = true
    rw [Nat.and_one_is_mod, h1]
    rfl
  · have hbit : (p ||| 2).testBit 1 = true := by
      rw [Nat.testBit_or]
      have h2 : (2 : Nat).testBit 1 = true := by decide
      rw [h2]
      simp
    have h2 : (p ||| 2) &&& 2 = 2 := by
      have h := Nat.and_two_pow (p ||| 2) 1
      rw [hbit] at h
      norm_num at h
      exact h
    show (((p ||| 2) &&& 2) >>> 1 != 0) = true
    rw [h2]
    rfl
  · show (p ||| 2) ||| 1 = (p ||| 1) ||| 2
    rw [Nat.lor_assoc, Nat.lor_assoc]
    have h : (2 ||| 1 : Nat) = (1 ||| 2 : Nat) := by decide
    rw [h]

/-- Witness for C5 at the concrete aligned pointer word 8, discharging the
alignment law's hypotheses there. -/
theorem tagged_cell_laws_witness :
    unmark (mark 8) = 8 ∧
    is_marked (mark 8) = true ∧
    is_array_node (mark_array_node 8) = true ∧
    mark (mark_array_node 8) = mark_array_node (mark 8) :=
  ⟨(tagged_cell_laws 8).1 (by norm_num [USIZE]) (by norm_num),
    (tagged_cell_laws 8).2.1, (tagged_cell_laws 8).2.2.1,
    (tagged_cell_laws 8).2.2.2⟩

/-- C9 counterexample: with the cell holding 5, expected 7 and new word 9,
compare_exchange_weak answers Err 9 — the new pointer — and not the actually
observed word 5, refuting the claim that both compare-exchange operations
return the observed word on failure. -/
theorem cas_observed_counterexample :
    (amp_compare_exchange_weak 5 7 9).2 = Except.error 9 ∧
    (amp_compare_exchange_weak 5 7 9).2 ≠ Except.error 5 := by
  refine ⟨rfl, ?_⟩
  intro h
  simp [amp_compare_exchange_weak] at h

/-- C9 amended: both operations succeed exactly when the cell holds the
expected word, and then store the new word; on failure the cell is unchanged
and compare_exchange carries back the observed word while
compare_exchange_weak carries back the new word. -/
theorem cas_result_spec (cell old nxt : Nat) :
    ((amp_compare_exchange cell old nxt).2.isOk = true ↔ cell = old) ∧
    ((amp_compare_exchange_weak cell old nxt).2.isOk = true ↔ cell = old) ∧
    (cell = old →
      (amp_compare_exchange cell old nxt).1 = nxt ∧
      (amp_compare_exchange_weak cell old nxt).1 = nxt) ∧
    (cell ≠ old →
      (amp_compare_exchange cell old nxt).1 = cell ∧
      (amp_compare_exchange cell old nxt).2 = Except.error cell ∧
      (amp_compare_exchange_weak cell old nxt).1 = cell ∧
      (amp_compare_exchange_weak cell old nxt).2 = Except.error nxt) := by
  by_cases h : cell = old <;>
    simp [amp_compare_exchange, amp_compare_exchange_weak, h, Except.isOk,
      Except.toBool]

/-- Witness for C9's amended theorem at the concrete failure input 5, 7, 9. -/
theorem cas_result_spec_witness :
    (amp_compare_exchange 5 7 9).2 = Except.error 5 ∧
    (amp_compare_exchange_weak 5 7 9).2 = Except.error 9 := by
  have h := cas_result_spec 5 7 9
  exact ⟨(h.2.2.2 (by decide)).2.1, (h.2.2.2 (by decide)).2.2.2⟩

/-- C1: the claim that insert routes by bits starting at d*S of the hash fails
on the code. The position insert computes at every level is hash & 63,
independent of the level (mut_hash is assigned and never read), while
expand_map's pre-placement does use the shifted formula of the spec; at hash
64 and depth 1 the two disagree: the loop would probe slot 0 where the spec
routes to slot 1. -/
theorem insert_routing_bug :
    (∀ h r, insertLevelPos h r = h % 64) ∧
    (∀ h d, expandNewPos h (6 * d) = specLevelPos h (d + 1)) ∧
    insertLevelPos 64 6 = 0 ∧ specLevelPos 64 1 = 1 ∧
    insertLevelPos 64 6 ≠ specLevelPos 64 1 := by
  refine ⟨fun h r => rfl, fun h d => ?_, rfl, rfl, by decide⟩
  unfold expandNewPos specLevelPos
  have h6 : 6 * d + 6 = 6 * (d + 1) := by ring
  rw [h6]

/-- C2: the claim that expand's CAS publishes the array interior with the
array-node flag set fails on the code. After inserting the hash-0 leaf (heap
address 4), expand_map on its cell publishes the bare array address 8 — a word
with is_array_node false — and the subsequent insert of hash 64, which
descends through that cell, reaches the source's own defensive panic
"Unexpected array node!" instead of treating the cell as an array interior. -/
theorem expand_publishes_unflagged :
    (expand_map (mapInsert (mapNew Nat) 0 0).1 BRef.hd 0 0).2 = Except.ok 8 ∧
    (getBucket (expand_map (mapInsert (mapNew Nat) 0 0).1 BRef.hd 0 0).1
      BRef.hd).getD 0 0 = 8 ∧
    is_array_node 8 = false ∧
    (mapInsert (mapInsert (mapNew Nat) 0 0).1 64 1).2 =
      IRes.panicked "Unexpected array node!" :=
  ⟨rfl, rfl, rfl, rfl⟩

/-- C4: the claim that insert returns Err exactly for a present key and Ok
otherwise fails on the code. Inserting hash 0 succeeds and re-inserting hash 0
reports the duplicate, but inserting the absent hash 64 into the map holding
only hash 0 returns neither Ok nor the duplicate error: it panics. -/
theorem insert_contract_bug :
    (mapInsert (mapNew Nat) 0 0).2 = IRes.ok ∧
    (mapInsert (mapInsert (mapNew Nat) 0 0).1 0 1).2 = IRes.dup ∧
    (mapInsert (mapInsert (mapNew Nat) 0 0).1 64 1).2 =
      IRes.panicked "Unexpected array node!" ∧
    (mapInsert (mapInsert (mapNew Nat) 0 0).1 64 1).2 ≠ IRes.ok ∧
    (mapInsert (mapInsert (mapNew Nat) 0 0).1 64 1).2 ≠ IRes.dup := by
  have hp : (mapInsert (mapInsert (mapNew Nat) 0 0).1 64 1).2 =
      IRes.panicked "Unexpected array node!" := rfl
  refine ⟨rfl, rfl, hp, ?_, ?_⟩ <;> rw [hp] <;> intro h <;> exact IRes.noConfusion h

/-- C3: the claim that the expand failure path frees only the fresh array's
storage and not the pre-populated leaf fails on the code. In the scenario of
C2 the leaf lives at address 4 and expand's fresh array (address 8) holds the
word 4 in its pre-populated slot; Box::from_raw of the array runs every cell's
Drop, so the failure path frees [8, 4] — the leaf included, though the parent
cell still owns it. -/
theorem expand_failure_frees_leaf :
    (mapInsert (mapNew Nat) 0 0).1.heap 4 = some (MNode.data 0 0) ∧
    (expand_map (mapInsert (mapNew Nat) 0 0).1 BRef.hd 0 0).1.heap 8 =
      some (MNode.array ((List.replicate 64 0).set 0 4)) ∧
    expandFailFrees 8 (MNode.array ((List.replicate 64 0).set 0 4) : MNode Nat)
      = [8, 4] :=
  ⟨rfl, rfl, rfl⟩

/-- C6: commit returns false exactly when one of its rollback
compare-exchanges succeeded in swapping the enqueued payload back to the fresh
sentinel, and such a rollback is attempted only on a segment-deleted
observation or on the head-moved path (head observed equal to the tail
segment and the stabilizing self-CAS failing); in every other case commit
returns true and performs no slot write. -/
theorem commit_rollback_iff (o : CommitObs) (tailOld itemPtr nonePtr : Nat) :
    ((commit_obs o tailOld itemPtr nonePtr).1 = false ↔
      (commit_obs o tailOld itemPtr nonePtr).2 = some nonePtr) ∧
    ((commit_obs o tailOld itemPtr nonePtr).1 = false →
      o.deleted1 = true ∨ o.deleted2 = true ∨
        (o.headObs = tailOld ∧ o.headAtCas ≠ o.headObs)) ∧
    ((commit_obs o tailOld itemPtr nonePtr).1 = true →
      (commit_obs o tailOld itemPtr nonePtr).2 = none) := by
  unfold commit_obs
  split_ifs <;> simp_all

/-- Witness for C6: a deleted-segment observation with the slot still holding
the payload rolls back, and the theorem's first conjunct turns the false
result into the recorded sentinel write. -/
theorem commit_rollback_iff_witness :
    (commit_obs ⟨1, 2, true, 1, 2, 1, false, 1⟩ 2 1 3).2 = some 3 :=
  ((commit_rollback_iff ⟨1, 2, true, 1, 2, 1, false, 1⟩ 2 1 3).1).mp rfl

theorem upd_self {α : Type} (f : Nat → α) (a : Nat) (v : α) :
    upd f a v a = v := by
  simp [upd]

theorem upd_ne {α : Type} (f : Nat → α) (a : Nat) (v : α) (x : Nat)
    (h : x ≠ a) : upd f a v x = f x := by
  simp [upd, h]

theorem allocSentinels_spec {T : Type} :
    ∀ (n : Nat) (s : PQueue T),
      (allocSentinels n s).1 = List.range' s.freshB n ∧
      (allocSentinels n s).2.boxH = (fun q =>
        if s.freshB ≤ q ∧ q < s.freshB + n then none else s.boxH q) ∧
      (allocSentinels n s).2.segH = s.segH ∧
      (allocSentinels n s).2.head = s.head ∧
      (allocSentinels n s).2.tail = s.tail ∧
      (allocSentinels n s).2.freshB = s.freshB + n ∧
      (allocSentinels n s).2.freshS = s.freshS ∧
      (allocSentinels n s).2.k = s.k := by
  intro n
  induction n with
  | zero =>
    intro s
    refine ⟨rfl, ?_, rfl, rfl, rfl, rfl, rfl, rfl⟩
    funext q
    rw [if_neg (by omega)]
    rfl
  | succ m ih =>
    intro s
    have h := ih { s with boxH := upd s.boxH s.freshB none, freshB := s.freshB + 1 }
    obtain ⟨h1, h2, h3, h4, h5, h6, h7, h8⟩ := h
    have hunf : allocSentinels (m + 1) s =
        (s.freshB ::
            (allocSentinels m
              { s with boxH := upd s.boxH s.freshB none, freshB := s.freshB + 1 }).1,
          (allocSentinels m
            { s with boxH := upd s.boxH s.freshB none, freshB := s.freshB + 1 }).2) := by
      simp [allocSentinels, allocBox]
    rw [hunf]
    refine ⟨?_, ?_, by simpa using h3, by simpa using h4, by simpa using h5,
      by rw [show s.freshB + (m + 1) = s.freshB + 1 + m by omega]; simpa using h6,
      by simpa using h7, by simpa using h8⟩
    · rw [h1]
      simp [List.range'_succ]
    · rw [h2]
      funext q
      simp only []
      by_cases hin : s.freshB + 1 ≤ q ∧ q < s.freshB + 1 + m
      · rw [if_pos hin, if_pos (by omega)]
      · rw [if_neg hin]
        by_cases hq : q = s.freshB
        · subst hq
          rw [upd_self, if_pos (by omega)]
        · rw [upd_ne _ _ _ _ hq, if_neg (by omega)]

theorem segNew_spec {T : Type} (s : PQueue T) :
    (segNew s).1 = s.freshS ∧
    (segNew s).2.boxH = (fun q =>
      if s.freshB ≤ q ∧ q < s.freshB + s.k then none else s.boxH q) ∧
    (segNew s).2.segH =
      upd s.segH s.freshS (PSeg.mk (List.range' s.freshB s.k) 0 false) ∧
    (segNew s).2.head = s.head ∧
    (segNew s).2.tail = s.tail ∧
    (segNew s).2.freshB = s.freshB + s.k ∧
    (segNew s).2.freshS = s.freshS + 1 ∧
    (segNew s).2.k = s.k := by
  obtain ⟨h1, h2, h3, h4, h5, h6, h7, h8⟩ := allocSentinels_spec s.k s
  unfold segNew
  refine ⟨by simp [h7], by simpa using h2, ?_, by simpa using h4,
    by simpa using h5, by simpa using h6, by simp [h7], by simpa using h8⟩
  simp only []
  rw [h3, h7, h1]

theorem find_empty_slot_found {T : Type} (s : PQueue T) (a : Nat) :
    ∀ order : List Nat, ∀ j, j ∈ order → s.boxH (getSlot s a j) = none →
      ∃ i p, find_empty_slot s a order = some (i, p) ∧ i ∈ order ∧
        p = getSlot s a i ∧ s.boxH p = none := by
  intro order
  induction order with
  | nil => intro j hj; cases hj
  | cons i rest ih =>
    intro j hj hcell
    by_cases hempty : s.boxH (getSlot s a i) = none
    · refine ⟨i, getSlot s a i, ?_, List.mem_cons_self i rest, rfl, hempty⟩
      unfold find_empty_slot
      rw [hempty]
    · cases hji : s.boxH (getSlot s a i) with
      | none => exact absurd hji hempty
      | some v =>
        have hj' : j ∈ rest := by
          rcases List.mem_cons.mp hj with h | h
          · subst h; rw [hcell] at hji; cases hji
          · exact h
        obtain ⟨i1, p1, hf, hmem, hp, hb⟩ := ih j hj' hcell
        refine ⟨i1, p1, ?_, List.mem_cons_of_mem i hmem, hp, hb⟩
        unfold find_empty_slot
        rw [hji]
        exact hf

theorem find_item_found {T : Type} (s : PQueue T) (a : Nat) :
    ∀ order : List Nat, ∀ j v, j ∈ order → s.boxH (getSlot s a j) = some v →
      ∃ i p w, find_item s a order = some (i, p) ∧ i ∈ order ∧
        p = getSlot s a i ∧ s.boxH p = some w := by
  intro order
  induction order with
  | nil => intro j v hj; cases hj
  | cons i rest ih =>
    intro j v hj hcell
    cases hji : s.boxH (getSlot s a i) with
    | some w =>
      refine ⟨i, getSlot s a i, w, ?_, List.mem_cons_self i rest, rfl, hji⟩
      unfold find_item
      rw [hji]
    | none =>
      have hj' : j ∈ rest := by
        rcases List.mem_cons.mp hj with h | h
        · subst h; rw [hcell] at hji; cases hji
        · exact h
      obtain ⟨i1, p1, w1, hf, hmem, hp, hb⟩ := ih j v hj' hcell
      refine ⟨i1, p1, w1, ?_, List.mem_cons_of_mem i hmem, hp, hb⟩
      unfold find_item
      rw [hji]
      exact hf

theorem find_item_none {T : Type} (s : PQueue T) (a : Nat) :
    ∀ order : List Nat, (∀ i, i ∈ order → s.boxH (getSlot s a i) = none) →
      find_item s a order = none := by
  intro order
  induction order with
  | nil => intro _; rfl
  | cons i rest ih =>
    intro h
    unfold find_item
    rw [h i (List.mem_cons_self i rest)]
    exact ih fun j hj => h j (List.mem_cons_of_mem i hj)

theorem QInv_setSlot {T : Type} (s : PQueue T) (a i w : Nat) (h : QInv s)
    (hw : w ≠ 0) : QInv (setSlot s a i w) := by
  obtain ⟨h1, h2, h3⟩ := h
  refine ⟨h1, h2, ?_⟩
  intro b hb1 hb2 p hp
  have hb2s : b < s.freshS := hb2
  by_cases hba : b = a
  · subst hba
    have hsb : (setSlot s b i w).segH b = PSeg.mk ((s.segH b).slots.set i w)
        (s.segH b).next (s.segH b).deleted := by
      show upd s.segH b _ b = _
      rw [upd_self]
    rw [hsb] at hp
    rcases List.mem_or_eq_of_mem_set hp with hmem | hew
    · exact h3 b hb1 hb2s p hmem
    · subst hew
      exact hw
  · have hsb : (setSlot s a i w).segH b = s.segH b := by
      show upd s.segH a _ b = _
      rw [upd_ne _ _ _ _ hba]
    rw [hsb] at hp
    exact h3 b hb1 hb2s p hp

theorem QInv_setNext {T : Type} (s : PQueue T) (a nx : Nat) (h : QInv s) :
    QInv (setNext s a nx) := by
  obtain ⟨h1, h2, h3⟩ := h
  refine ⟨h1, h2, ?_⟩
  intro b hb1 hb2 p hp
  by_cases hba : b = a
  · subst hba
    have hsb : (setNext s b nx).segH b = PSeg.mk (s.segH b).slots nx
        (s.segH b).deleted := by
      show upd s.segH b _ b = _
      rw [upd_self]
    rw [hsb] at hp
    exact h3 b hb1 hb2 p hp
  · have hsb : (setNext s a nx).segH b = s.segH b := by
      show upd s.segH a _ b = _
      rw [upd_ne _ _ _ _ hba]
    rw [hsb] at hp
    exact h3 b hb1 hb2 p hp

theorem QInv_setDeleted {T : Type} (s : PQueue T) (a : Nat) (h : QInv s) :
    QInv (setDeleted s a) := by
  obtain ⟨h1, h2, h3⟩ := h
  refine ⟨h1, h2, ?_⟩
  intro b hb1 hb2 p hp
  by_cases hba : b = a
  · subst hba
    have hsb : (setDeleted s b).segH b = PSeg.mk (s.segH b).slots
        (s.segH b).next true := by
      show upd s.segH b _ b = _
      rw [upd_self]
    rw [hsb] at hp
    exact h3 b hb1 hb2 p hp
  · have hsb : (setDeleted s a).segH b = s.segH b := by
      show upd s.segH a _ b = _
      rw [upd_ne _ _ _ _ hba]
    rw [hsb] at hp
    exact h3 b hb1 hb2 p hp

theorem QInv_writeBox {T : Type} (s : PQueue T) (p : Nat) (v : Option T)
    (h : QInv s) : QInv (writeBox s p v) := h

theorem QInv_allocBox {T : Type} (s : PQueue T) (v : Option T) (h : QInv s) :
    QInv (allocBox s v).2 := by
  obtain ⟨h1, h2, h3⟩ := h
  exact ⟨by show 1 ≤ s.freshB + 1; omega, h2, h3⟩

theorem mem_range'_iff (m s n : Nat) :
    m ∈ List.range' s n ↔ s ≤ m ∧ m < s + n := by
  rw [List.mem_range']
  constructor
  · rintro ⟨i, hi, rfl⟩
    omega
  · intro h
    exact ⟨m - s, by omega, by omega⟩

theorem QInv_segNew {T : Type} (s : PQueue T) (h : QInv s) :
    QInv (segNew s).2 ∧ (segNew s).1 = s.freshS ∧ 1 ≤ (segNew s).1 := by
  obtain ⟨h1, h2, h3⟩ := h
  obtain ⟨g1, g2, g3, g4, g5, g6, g7, g8⟩ := segNew_spec s
  refine ⟨⟨by omega, by omega, ?_⟩, g1, by omega⟩
  intro b hb1 hb2 p hp
  rw [g3] at hp
  rw [g7] at hb2
  by_cases hbs : b = s.freshS
  · subst hbs
    rw [upd_self] at hp
    have : s.freshB ≤ p := ((mem_range'_iff p s.freshB s.k).mp hp).1
    omega
  · rw [upd_ne _ _ _ _ hbs] at hp
    exact h3 b hb1 (by omega) p hp

theorem QInv_advance_tail {T : Type} (s : PQueue T) (old : Nat) (h : QInv s) :
    QInv (advance_tail s old) := by
  rcases hsn : segNew s with ⟨a, s1⟩
  have hq := QInv_segNew s h
  rw [hsn] at hq
  obtain ⟨hq1, _, _⟩ := hq
  unfold advance_tail
  rw [hsn]
  dsimp only
  split_ifs with h1 h2
  · have hs2 : QInv (setNext s1 old a) := QInv_setNext s1 old a hq1
    exact ⟨hs2.1, hs2.2.1, hs2.2.2⟩
  · exact ⟨h.1, h.2.1, h.2.2⟩
  · exact h

theorem QInv_advance_head {T : Type} (s : PQueue T) (old : Nat) (h : QInv s) :
    QInv (advance_head s old) := by
  unfold advance_head
  dsimp only
  split_ifs
  all_goals first
  | exact h
  | exact QInv_setDeleted _ _ ⟨h.1, h.2.1, h.2.2⟩

theorem QInv_commitSeq {T : Type} (s : PQueue T) (tailOld itemPtr i : Nat)
    (h : QInv s) : QInv (commitSeq s tailOld itemPtr i).1 := by
  have hb : (1 : Nat) ≤ s.freshB := h.1
  have ha : QInv (allocBox s (none : Option T)).2 := QInv_allocBox s none h
  have hnz : (allocBox s (none : Option T)).1 ≠ 0 := by
    show s.freshB ≠ 0
    omega
  unfold commitSeq
  dsimp only [allocBox]
  split_ifs <;>
    first
    | exact h
    | exact ⟨ha.1, ha.2.1, ha.2.2⟩
    | exact QInv_setSlot _ _ _ _ ⟨ha.1, ha.2.1, ha.2.2⟩ hnz

theorem QInv_try_enqueue {T : Type} (s : PQueue T) (dp : Nat) (o : List Nat)
    (h : QInv s) (hdp : dp ≠ 0) : QInv (try_enqueue s dp o).1 := by
  unfold try_enqueue
  dsimp only
  cases hfe : find_empty_slot s s.tail o with
  | none =>
    dsimp only
    split_ifs
    · exact QInv_advance_tail s s.tail h
    · exact h
  | some ip =>
    rcases ip with ⟨i, oldPtr⟩
    dsimp only
    split_ifs with h1 h2
    · rcases hcs : commitSeq (setSlot s s.tail i dp) s.tail dp i with ⟨s2, b⟩
      have hset : QInv (setSlot s s.tail i dp) := QInv_setSlot s s.tail i dp h hdp
      have hq := QInv_commitSeq (setSlot s s.tail i dp) s.tail dp i hset
      rw [hcs] at hq
      cases b <;> exact hq
    all_goals exact h

theorem QInv_try_dequeue {T : Type} (s : PQueue T) (o : List Nat)
    (h : QInv s) : QInv (try_dequeue s o).1 := by
  unfold try_dequeue
  dsimp only
  cases hfi : find_item s s.head o with
  | none =>
    dsimp only
    split_ifs
    all_goals first
    | exact h
    | exact QInv_advance_head s s.head h
  | some ip =>
    rcases ip with ⟨i, itemPtr⟩
    dsimp only
    by_cases hht : s.head = s.tail
    · rw [if_pos rfl, if_pos rfl, if_pos hht]
      have hat : QInv (advance_tail s s.tail) := QInv_advance_tail s s.tail h
      have hab : QInv (allocBox (advance_tail s s.tail) (none : Option T)).2 :=
        QInv_allocBox _ none hat
      have hnz : (allocBox (advance_tail s s.tail) (none : Option T)).1 ≠ 0 := by
        show (advance_tail s s.tail).freshB ≠ 0
        have := hat.1
        omega
      dsimp only [allocBox]
      split_ifs with h4
      · exact QInv_writeBox _ _ _ (QInv_setSlot _ _ _ _ ⟨hab.1, hab.2.1, hab.2.2⟩ hnz)
      · exact ⟨hab.1, hab.2.1, hab.2.2⟩
    · rw [if_pos rfl, if_pos rfl, if_neg hht]
      have hab : QInv (allocBox s (none : Option T)).2 := QInv_allocBox _ none h
      have hnz : (allocBox s (none : Option T)).1 ≠ 0 := by
        show s.freshB ≠ 0
        have := h.1
        omega
      dsimp only [allocBox]
      split_ifs with h4
      · exact QInv_writeBox _ _ _ (QInv_setSlot _ _ _ _ ⟨hab.1, hab.2.1, hab.2.2⟩ hnz)
      · exact ⟨hab.1, hab.2.1, hab.2.2⟩

/-- C8: every slot pointer of every segment is non-null. A new queue's single
segment has its k slots pointing at fresh heap boxes containing None, and the
operations preserve the all-slots-non-null invariant: the payload box an
enqueue CASes in is a fresh non-null allocation, and every sentinel written
back by dequeue or by commit's rollback is a fresh non-null boxed None. -/
theorem slot_pointers_nonnull {T : Type} :
    (∀ kk : Nat, QInv (queueNew T kk) ∧
      ((queueNew T kk).segH (queueNew T kk).head).slots = List.range' 1 kk ∧
      (∀ p, p ∈ ((queueNew T kk).segH (queueNew T kk).head).slots →
        p ≠ 0 ∧ (queueNew T kk).boxH p = none)) ∧
    (∀ (s : PQueue T) (v : T), QInv s →
      (allocBox s (some v)).1 ≠ 0 ∧ QInv (allocBox s (some v)).2) ∧
    (∀ (s : PQueue T) (dp : Nat) (o : List Nat), QInv s → dp ≠ 0 →
      QInv (try_enqueue s dp o).1) ∧
    (∀ (s : PQueue T) (o : List Nat), QInv s → QInv (try_dequeue s o).1) := by
  refine ⟨?_, ?_, ?_, ?_⟩
  · intro kk
    obtain ⟨g1, g2, g3, g4, g5, g6, g7, g8⟩ :=
      segNew_spec (PQueue.mk (fun _ => (none : Option T))
        (fun _ => PSeg.mk [] 0 false) 0 0 1 1 kk)
    dsimp only at g1 g2 g3 g6 g7
    have hh : (queueNew T kk).head = 1 := g1
    have hsl : (queueNew T kk).segH 1 = PSeg.mk (List.range' 1 kk) 0 false := by
      show (segNew _).2.segH 1 = _
      rw [g3, upd_self]
    have hsg : (queueNew T kk).segH (queueNew T kk).head =
        PSeg.mk (List.range' 1 kk) 0 false := by
      rw [hh]
      exact hsl
    refine ⟨⟨?_, ?_, ?_⟩, by rw [hsg], ?_⟩
    · show 1 ≤ (segNew _).2.freshB
      rw [g6]
      omega
    · show 1 ≤ (segNew _).2.freshS
      rw [g7]
      omega
    · intro a ha1 ha2 p hp
      have hfs : (queueNew T kk).freshS = 1 + 1 := g7
      have ha : a = 1 := by omega
      subst ha
      rw [hsl] at hp
      have := (mem_range'_iff p 1 kk).mp hp
      omega
    · intro p hp
      rw [hsg] at hp
      have hpb := (mem_range'_iff p 1 kk).mp hp
      refine ⟨by omega, ?_⟩
      show (segNew _).2.boxH p = none
      rw [g2]
      dsimp only
      split_ifs <;> rfl
  · intro s v h
    refine ⟨?_, QInv_allocBox s (some v) h⟩
    show s.freshB ≠ 0
    have := h.1
    omega
  · exact fun s dp o h hdp => QInv_try_enqueue s dp o h hdp
  · exact fun s o h => QInv_try_dequeue s o h

/-- Witness for C8 on a concrete queue with k = 2: the invariant holds after
a dequeue from a fresh queue. -/
theorem slot_pointers_nonnull_witness :
    QInv (try_dequeue (queueNew Nat 2) [0, 1]).1 :=
  (@slot_pointers_nonnull Nat).2.2.2 (queueNew Nat 2) [0, 1]
    ((@slot_pointers_nonnull Nat).1 2).1

theorem find_item_some {T : Type} (s : PQueue T) (a : Nat) :
    ∀ (order : List Nat) (i p : Nat), find_item s a order = some (i, p) →
      i ∈ order ∧ p = getSlot s a i ∧ ∃ w, s.boxH p = some w := by
  intro order
  induction order with
  | nil => intro i p h; cases h
  | cons j rest ih =>
    intro i p h
    unfold find_item at h
    cases hj : s.boxH (getSlot s a j) with
    | some w =>
      rw [hj] at h
      simp only [Option.some.injEq, Prod.mk.injEq] at h
      obtain ⟨hi, hp⟩ := h
      subst hi
      subst hp
      exact ⟨List.mem_cons_self j rest, rfl, w, hj⟩
    | none =>
      rw [hj] at h
      obtain ⟨h1, h2, h3⟩ := ih i p h
      exact ⟨List.mem_cons_of_mem j h1, h2, h3⟩

theorem getD_set_self (l : List Nat) (i w : Nat) (h : i < l.length) :
    (l.set i w).getD i 0 = w := by
  rw [List.getD_eq_getElem?_getD, List.getElem?_set_self (by simpa using h)]
  rfl

theorem getD_set_ne (l : List Nat) (i j w : Nat) (h : i ≠ j) :
    (l.set i w).getD j 0 = l.getD j 0 := by
  rw [List.getD_eq_getElem?_getD, List.getElem?_set_ne h,
    ← List.getD_eq_getElem?_getD]

/-- C10: a successful try_dequeue that returns Some v while the head segment
differs from the tail segment mutates exactly one cell of the queue: the
chosen slot of the head segment changes from the payload box p (holding v) to
the fresh non-null sentinel box, while the head and tail pointers, every other
segment, the head segment's next pointer and deleted flag, and every other
slot are unchanged. -/
theorem dequeue_frame {T : Type} (s : PQueue T) (o : List Nat) (i p : Nat)
    (v : T)
    (hne : s.head ≠ s.tail)
    (hfi : find_item s s.head o = some (i, p))
    (hlen : i < ((s.segH s.head).slots).length)
    (hv : s.boxH p = some v)
    (hpb : p < s.freshB)
    (hb : 1 ≤ s.freshB) :
    (try_dequeue s o).2 = DeqOut.done (some v) ∧
    (try_dequeue s o).1.head = s.head ∧
    (try_dequeue s o).1.tail = s.tail ∧
    (try_dequeue s o).1.freshS = s.freshS ∧
    (∀ a, a ≠ s.head → (try_dequeue s o).1.segH a = s.segH a) ∧
    ((try_dequeue s o).1.segH s.head).next = (s.segH s.head).next ∧
    ((try_dequeue s o).1.segH s.head).deleted = (s.segH s.head).deleted ∧
    ((try_dequeue s o).1.segH s.head).slots =
      (s.segH s.head).slots.set i s.freshB ∧
    getSlot (try_dequeue s o).1 s.head i = s.freshB ∧
    (∀ j, j ≠ i → getSlot (try_dequeue s o).1 s.head j = getSlot s s.head j) ∧
    s.freshB ≠ 0 ∧
    (try_dequeue s o).1.boxH s.freshB = none ∧
    getSlot s s.head i = p := by
  obtain ⟨hio, hpEq, w, hw⟩ := find_item_some s s.head o i p hfi
  have hcheck : getSlot s s.head i = p := hpEq.symm
  have hpfb : p ≠ s.freshB := by omega
  have hval : upd s.boxH s.freshB (none : Option T) p = some v := by
    rw [upd_ne _ _ _ _ hpfb]
    exact hv
  have hred : try_dequeue s o =
      (writeBox (setSlot (allocBox s none).2 s.head i s.freshB) p none,
        DeqOut.done ((allocBox s (none : Option T)).2.boxH p)) := by
    unfold try_dequeue
    dsimp only
    rw [if_pos rfl, if_pos rfl, hfi]
    dsimp only
    rw [if_neg hne]
    dsimp only [allocBox]
    split_ifs with h3
    · rfl
    · exact absurd hcheck h3
  rw [hred]
  dsimp only [writeBox, setSlot, allocBox]
  refine ⟨by rw [hval], rfl, rfl, rfl, ?_, ?_, ?_, ?_, ?_, ?_, by omega, ?_, hcheck⟩
  · intro a ha
    exact upd_ne _ _ _ _ ha
  · rw [upd_self]
  · rw [upd_self]
  · rw [upd_self]
  · show (upd s.segH s.head _ s.head).slots.getD i 0 = s.freshB
    rw [upd_self]
    exact getD_set_self _ i s.freshB hlen
  · intro j hj
    show (upd s.segH s.head _ s.head).slots.getD j 0 = _
    rw [upd_self]
    exact getD_set_ne _ i j s.freshB (fun he => hj he.symm)
  · show upd (upd s.boxH s.freshB none) p none s.freshB = none
    rw [upd_ne _ _ _ _ (fun he => hpfb he.symm), upd_self]

/-- Witness for C10 on a concrete two-segment queue: the head segment (address
1) holds the payload 7 in the box at address 2, the tail is segment 3. -/
theorem dequeue_frame_witness :
    (try_dequeue (PQueue.mk (fun q => if q = 2 then some 7 else none)
      (fun a => if a = 1 then PSeg.mk [2] 3 false else PSeg.mk [4] 0 false)
      1 3 5 4 1) [0]).2 = DeqOut.done (some 7) :=
  (dequeue_frame (PQueue.mk (fun q => if q = 2 then some 7 else none)
      (fun a => if a = 1 then PSeg.mk [2] 3 false else PSeg.mk [4] 0 false)
      1 3 5 4 1) [0] 0 2 7 (by decide) rfl (by decide) rfl (by decide)
      (by decide)).1

theorem getD_eq_getElem' {α : Type} (l : List α) (d : α) (i : Nat)
    (h : i < l.length) : l.getD i d = l.get ⟨i, h⟩ := by
  rw [List.getD_eq_getElem?_getD, List.getElem?_eq_getElem h]
  rfl

theorem mem_filterMap_id {T : Type} (l : List (Option T)) (x : T) :
    x ∈ l.filterMap id ↔ some x ∈ l := by
  simp

theorem exists_getD_some {T : Type} :
    ∀ (view : List (Option T)) (x : T), x ∈ view.filterMap id →
      ∃ i, i < view.length ∧ view.getD i none = some x := by
  intro view
  induction view with
  | nil => intro x hx; cases hx
  | cons a tl ih =>
    intro x hx
    have hx2 : some x ∈ a :: tl := (mem_filterMap_id _ x).mp hx
    rcases List.mem_cons.mp hx2 with h | h
    · exact ⟨0, by simp, by simp [← h]⟩
    · obtain ⟨i, hi, hg⟩ := ih x ((mem_filterMap_id tl x).mpr h)
      exact ⟨i + 1, by simpa using hi, by simpa using hg⟩

theorem exists_getD_none {T : Type} :
    ∀ view : List (Option T), (view.filterMap id).length < view.length →
      ∃ i, i < view.length ∧ view.getD i none = none := by
  intro view
  induction view with
  | nil => intro h; cases h
  | cons a tl ih =>
    intro h
    cases a with
    | none => exact ⟨0, by simp, by simp⟩
    | some y =>
      have h2 : (tl.filterMap id).length < tl.length := by
        simpa using h
      obtain ⟨i, hi, hg⟩ := ih h2
      exact ⟨i + 1, by simpa using hi, by simpa using hg⟩

theorem all_some_of_length_eq {T : Type} :
    ∀ view : List (Option T), (view.filterMap id).length = view.length →
      ∀ i, i < view.length → ∃ w, view.getD i none = some w := by
  intro view
  induction view with
  | nil => intro _ i hi; cases hi
  | cons a tl ih =>
    intro h i hi
    cases a with
    | none =>
      exfalso
      have hle := List.length_filterMap_le (id : Option T → Option T) tl
      simp at h
      omega
    | some y =>
      cases i with
      | zero => exact ⟨y, by simp⟩
      | succ j =>
        have h2 : (tl.filterMap id).length = tl.length := by simpa using h
        obtain ⟨w, hw⟩ := ih h2 j (by simpa using hi)
        exact ⟨w, by simpa using hw⟩

theorem all_none_of_filterMap_nil {T : Type} :
    ∀ view : List (Option T), view.filterMap id = [] →
      ∀ i, view.getD i none = none := by
  intro view
  induction view with
  | nil => intro _ i; cases i <;> rfl
  | cons a tl ih =>
    intro h i
    cases a with
    | none =>
      cases i with
      | zero => rfl
      | succ j => exact ih (by simpa using h) j
    | some y => simp at h

theorem filterMap_set_some {T : Type} :
    ∀ (view : List (Option T)) (i : Nat) (v : T), i < view.length →
      view.getD i none = none →
      ((view.set i (some v)).filterMap id).Perm (v :: view.filterMap id) := by
  intro view
  induction view with
  | nil => intro i v hi; cases hi
  | cons a tl ih =>
    intro i v hi hn
    cases i with
    | zero =>
      cases a with
      | none => simp
      | some y => simp at hn
    | succ j =>
      have hj : j < tl.length := by simpa using hi
      have hn2 : tl.getD j none = none := by simpa using hn
      have hperm := ih j v hj hn2
      cases a with
      | none => simpa using hperm
      | some y =>
        have : ((some y :: tl.set j (some v)).filterMap id) =
            y :: (tl.set j (some v)).filterMap id := by simp
        rw [List.set_cons_succ, this]
        exact ((hperm.cons y).trans (List.Perm.swap v y _)).symm.symm

theorem filterMap_set_none {T : Type} :
    ∀ (view : List (Option T)) (i : Nat) (v : T), i < view.length →
      view.getD i none = some v →
      (view.filterMap id).Perm (v :: (view.set i none).filterMap id) := by
  intro view
  induction view with
  | nil => intro i v hi; cases hi
  | cons a tl ih =>
    intro i v hi hs
    cases i with
    | zero =>
      cases a with
      | none => simp at hs
      | some y =>
        have hy : y = v := by simpa using hs
        subst hy
        simp
    | succ j =>
      have hj : j < tl.length := by simpa using hi
      have hs2 : tl.getD j none = some v := by simpa using hs
      have hperm := ih j v hj hs2
      cases a with
      | none => simpa using hperm
      | some y =>
        rw [List.set_cons_succ]
        have h1 : ((some y :: tl).filterMap id) = y :: tl.filterMap id := by simp
        have h2 : ((some y :: tl.set j none).filterMap id) =
            y :: (tl.set j none).filterMap id := by simp
        rw [h1, h2]
        exact (hperm.cons y).trans (List.Perm.swap v y _)

theorem nodup_set (l : List Nat) :
    ∀ (i w : Nat), l.Nodup → w ∉ l → (l.set i w).Nodup := by
  induction l with
  | nil => intro i w _ _; simp
  | cons a tl ih =>
    intro i w hn hw
    have hna : a ∉ tl := (List.nodup_cons.mp hn).1
    have hnt : tl.Nodup := (List.nodup_cons.mp hn).2
    have hwa : w ≠ a := fun h => hw (h ▸ List.mem_cons_self a tl)
    have hwt : w ∉ tl := fun h => hw (List.mem_cons_of_mem a h)
    cases i with
    | zero =>
      rw [List.set_cons_zero]
      exact List.nodup_cons.mpr ⟨hwt, hnt⟩
    | succ j =>
      rw [List.set_cons_succ]
      refine List.nodup_cons.mpr ⟨?_, ih j w hnt hwt⟩
      intro hmem
      rcases List.mem_or_eq_of_mem_set hmem with h | h
      · exact hna h
      · exact hwa h.symm

theorem segView_getD {T : Type} (s : PQueue T) (a i : Nat)
    (hi : i < (s.segH a).slots.length) :
    (segView s a).getD i none = s.boxH (getSlot s a i) := by
  unfold segView getSlot
  rw [getD_eq_getElem' _ _ i (by simpa using hi), getD_eq_getElem' _ _ i hi]
  simp [List.get_eq_getElem]

theorem segView_length {T : Type} (s : PQueue T) (a : Nat) :
    (segView s a).length = (s.segH a).slots.length := by
  unfold segView
  simp

theorem find_empty_slot_some {T : Type} (s : PQueue T) (a : Nat) :
    ∀ (order : List Nat) (i p : Nat), find_empty_slot s a order = some (i, p) →
      i ∈ order ∧ p = getSlot s a i ∧ s.boxH p = none := by
  intro order
  induction order with
  | nil => intro i p h; cases h
  | cons j rest ih =>
    intro i p h
    unfold find_empty_slot at h
    cases hj : s.boxH (getSlot s a j) with
    | some w =>
      rw [hj] at h
      obtain ⟨h1, h2, h3⟩ := ih i p h
      exact ⟨List.mem_cons_of_mem j h1, h2, h3⟩
    | none =>
      rw [hj] at h
      simp only [Option.some.injEq, Prod.mk.injEq] at h
      obtain ⟨hi, hp⟩ := h
      subst hi
      subst hp
      exact ⟨List.mem_cons_self j rest, rfl, hj⟩

theorem find_empty_slot_none {T : Type} (s : PQueue T) (a : Nat) :
    ∀ order : List Nat,
      (∀ i, i ∈ order → ∃ w, s.boxH (getSlot s a i) = some w) →
      find_empty_slot s a order = none := by
  intro order
  induction order with
  | nil => intro _; rfl
  | cons j rest ih =>
    intro h
    obtain ⟨w, hw⟩ := h j (List.mem_cons_self j rest)
    unfold find_empty_slot
    rw [hw]
    exact ih fun i hi => h i (List.mem_cons_of_mem j hi)

theorem getSlot_setSlot_self {T : Type} (s : PQueue T) (a i w : Nat)
    (hlen : i < (s.segH a).slots.length) :
    getSlot (setSlot s a i w) a i = w := by
  show (upd s.segH a _ a).slots.getD i 0 = w
  rw [upd_self]
  exact getD_set_self _ i w hlen

/-- Commit's sequential behaviour on the slot its caller just filled: with
the slot holding the payload and the segment not deleted, commit returns true
on every path (the head self-CAS succeeds sequentially), its only state
effect the sentinel allocation of line 116. -/
theorem commitSeq_true {T : Type} (s : PQueue T) (a dp i : Nat)
    (hslot : getSlot s a i = dp)
    (hdel : (s.segH a).deleted = false) :
    commitSeq s a dp i = ((allocBox s (none : Option T)).2, true) := by
  unfold commitSeq
  rw [if_neg (show ¬(getSlot s a i ≠ dp) from fun hh => hh hslot)]
  dsimp only [allocBox]
  rw [hdel]
  rw [if_neg (show ¬(false = true) by simp)]
  by_cases hh : s.head = a
  · rw [if_pos hh, if_pos rfl]
  · rw [if_neg hh, if_pos rfl]

/-- try_enqueue when the probe order hits an empty slot of the tail segment:
the payload box is stored into that slot, commit returns true, and the only
other state effect is commit's sentinel allocation. -/
theorem try_enqueue_succ {T : Type} (s : PQueue T) (dp : Nat) (o : List Nat)
    (j : Nat)
    (hj : j ∈ o) (hempty : s.boxH (getSlot s s.tail j) = none)
    (hlenAll : ∀ i, i ∈ o → i < (s.segH s.tail).slots.length)
    (hdel : (s.segH s.tail).deleted = false) :
    ∃ i, i ∈ o ∧ i < (s.segH s.tail).slots.length ∧
      s.boxH (getSlot s s.tail i) = none ∧
      try_enqueue s dp o =
        ((allocBox (setSlot s s.tail i dp) (none : Option T)).2, true) := by
  obtain ⟨i, p, hfe, hio, hp, hemp⟩ :=
    find_empty_slot_found s s.tail o j hj hempty
  have hlen := hlenAll i hio
  have h1 : getSlot (setSlot s s.tail i dp) s.tail i = dp :=
    getSlot_setSlot_self s s.tail i dp hlen
  have h2 : ((setSlot s s.tail i dp).segH s.tail).deleted = false := by
    show (upd s.segH s.tail _ s.tail).deleted = false
    rw [upd_self]
    exact hdel
  refine ⟨i, hio, hlen, by rw [← hp]; exact hemp, ?_⟩
  unfold try_enqueue
  dsimp only
  rw [if_pos rfl, hfe]
  dsimp only
  rw [if_pos rfl, if_pos hp.symm, commitSeq_true _ _ _ _ h1 h2]

/-- try_enqueue when every slot of the tail segment is occupied: advance the
tail and report retry. -/
theorem try_enqueue_full {T : Type} (s : PQueue T) (dp : Nat) (o : List Nat)
    (hall : ∀ i, i ∈ o → ∃ w, s.boxH (getSlot s s.tail i) = some w) :
    try_enqueue s dp o = (advance_tail s s.tail, false) := by
  have hfe : find_empty_slot s s.tail o = none := find_empty_slot_none s s.tail o hall
  unfold try_enqueue
  dsimp only
  rw [if_pos rfl, hfe]

/-- advance_tail on a tail whose next is null: a fresh segment is allocated,
linked, and published as the new tail. -/
theorem advance_tail_next0 {T : Type} (s : PQueue T)
    (h0 : (s.segH s.tail).next = 0) :
    advance_tail s s.tail =
      { setNext (segNew s).2 s.tail (segNew s).1 with tail := (segNew s).1 } := by
  unfold advance_tail
  dsimp only
  rw [if_pos rfl, if_pos rfl, if_pos h0]

theorem advance_tail_spec {T : Type} (s : PQueue T)
    (h0 : (s.segH s.tail).next = 0) (htl : s.tail ≠ s.freshS) :
    (advance_tail s s.tail).head = s.head ∧
    (advance_tail s s.tail).tail = s.freshS ∧
    (advance_tail s s.tail).freshS = s.freshS + 1 ∧
    (advance_tail s s.tail).freshB = s.freshB + s.k ∧
    (advance_tail s s.tail).k = s.k ∧
    (advance_tail s s.tail).segH s.tail =
      PSeg.mk (s.segH s.tail).slots s.freshS (s.segH s.tail).deleted ∧
    (advance_tail s s.tail).segH s.freshS =
      PSeg.mk (List.range' s.freshB s.k) 0 false ∧
    (∀ b, b ≠ s.tail → b ≠ s.freshS →
      (advance_tail s s.tail).segH b = s.segH b) ∧
    (∀ q, q < s.freshB → (advance_tail s s.tail).boxH q = s.boxH q) := by
  obtain ⟨g1, g2, g3, g4, g5, g6, g7, g8⟩ := segNew_spec s
  rw [advance_tail_next0 s h0]
  have hsg : ∀ b, (setNext (segNew s).2 s.tail (segNew s).1).segH b =
      upd ((segNew s).2.segH) s.tail
        (PSeg.mk ((segNew s).2.segH s.tail).slots (segNew s).1
          ((segNew s).2.segH s.tail).deleted) b := fun b => rfl
  have hst : (segNew s).2.segH s.tail = s.segH s.tail := by
    rw [g3]
    exact upd_ne _ _ _ _ htl
  refine ⟨?_, ?_, ?_, ?_, ?_, ?_, ?_, ?_, ?_⟩
  · show (segNew s).2.head = s.head
    exact g4
  · show (segNew s).1 = s.freshS
    exact g1
  · show (segNew s).2.freshS = s.freshS + 1
    exact g7
  · show (segNew s).2.freshB = s.freshB + s.k
    exact g6
  · show (segNew s).2.k = s.k
    exact g8
  · show (setNext (segNew s).2 s.tail (segNew s).1).segH s.tail = _
    rw [hsg, upd_self, hst, g1]
  · show (setNext (segNew s).2 s.tail (segNew s).1).segH s.freshS = _
    rw [hsg, upd_ne _ _ _ _ (fun hc => htl hc.symm), g3, upd_self]
  · intro b hb1 hb2
    show (setNext (segNew s).2 s.tail (segNew s).1).segH b = _
    rw [hsg, upd_ne _ _ _ _ hb1, g3, upd_ne _ _ _ _ hb2]
  · intro q hq
    show (segNew s).2.boxH q = s.boxH q
    rw [g2]
    dsimp only
    rw [if_neg (by omega)]

/-- try_dequeue with head distinct from tail and an occupied slot found: the
slot is swapped to a fresh sentinel and the payload returned. -/
theorem try_dequeue_found_ne {T : Type} (s : PQueue T) (o : List Nat)
    (i p : Nat)
    (hne : s.head ≠ s.tail)
    (hfi : find_item s s.head o = some (i, p))
    (hpb : p < s.freshB) :
    try_dequeue s o =
      (writeBox (setSlot (allocBox s none).2 s.head i s.freshB) p none,
        DeqOut.done (s.boxH p)) := by
  obtain ⟨hio, hpEq, w, hw⟩ := find_item_some s s.head o i p hfi
  have hcheck : getSlot s s.head i = p := hpEq.symm
  have hpfb : p ≠ s.freshB := by omega
  have hval : upd s.boxH s.freshB (none : Option T) p = s.boxH p :=
    upd_ne _ _ _ _ hpfb
  unfold try_dequeue
  dsimp only
  rw [if_pos rfl, if_pos rfl, hfi]
  dsimp only
  rw [if_neg hne]
  dsimp only [allocBox]
  split_ifs with h3
  · rw [hval]
  · exact absurd hcheck h3

/-- try_dequeue with head equal to tail (single live segment), null next, and
an occupied slot found: advance_tail first links a fresh tail segment, then
the slot is swapped to a fresh sentinel and the payload returned. -/
theorem try_dequeue_found_eq {T : Type} (s : PQueue T) (o : List Nat)
    (i p : Nat)
    (heq : s.head = s.tail)
    (h0 : (s.segH s.tail).next = 0)
    (htl : s.tail ≠ s.freshS)
    (hfi : find_item s s.head o = some (i, p))
    (hpb : p < s.freshB) :
    try_dequeue s o =
      (writeBox (setSlot (allocBox (advance_tail s s.tail) none).2 s.head i
          (advance_tail s s.tail).freshB) p none,
        DeqOut.done (s.boxH p)) := by
  obtain ⟨hio, hpEq, w, hw⟩ := find_item_some s s.head o i p hfi
  obtain ⟨a1, a2, a3, a4, a5, a6, a7, a8, a9⟩ := advance_tail_spec s h0 htl
  have hcheck : getSlot (advance_tail s s.tail) s.head i = p := by
    unfold getSlot
    rw [heq, a6]
    exact (heq ▸ hpEq).symm
  have hfb : s.freshB ≤ (advance_tail s s.tail).freshB := by
    rw [a4]
    omega
  have hpfb : p ≠ (advance_tail s s.tail).freshB := by omega
  have hval : upd (advance_tail s s.tail).boxH (advance_tail s s.tail).freshB
      (none : Option T) p = s.boxH p := by
    rw [upd_ne _ _ _ _ hpfb]
    exact a9 p hpb
  unfold try_dequeue
  dsimp only
  rw [if_pos rfl, if_pos rfl, hfi]
  dsimp only
  rw [if_pos heq]
  dsimp only [allocBox]
  split_ifs with h3
  · rw [hval]
  · exact absurd hcheck h3

/-- try_dequeue with the head segment empty and a non-null next: the head is
advanced past the now-deleted segment and the caller retries. -/
theorem try_dequeue_advance {T : Type} (s : PQueue T) (o : List Nat)
    (hne : s.tail ≠ s.head)
    (hfi : find_item s s.head o = none)
    (hnx : (s.segH s.head).next ≠ 0) :
    try_dequeue s o =
      (setDeleted { s with head := (s.segH s.head).next } s.head,
        DeqOut.retry) := by
  unfold try_dequeue
  dsimp only
  rw [if_pos rfl, if_pos rfl, hfi]
  dsimp only
  rw [if_neg hnx]
  unfold advance_head
  dsimp only
  rw [if_pos rfl, if_pos rfl,
    if_neg (show ¬(s.tail = s.head ∧ (s.segH s.tail).next = 0) from
      fun hc => hne hc.1),
    if_neg hne]

/-- try_dequeue with the head segment empty and a null next: the queue is
empty and None is returned without any state change. -/
theorem try_dequeue_none {T : Type} (s : PQueue T) (o : List Nat)
    (hfi : find_item s s.head o = none)
    (hnx : (s.segH s.head).next = 0) :
    try_dequeue s o = (s, DeqOut.done none) := by
  unfold try_dequeue
  dsimp only
  rw [if_pos rfl, if_pos rfl, hfi]
  dsimp only
  rw [if_pos hnx]

theorem mem_of_getD {α : Type} [Inhabited α] (l : List α) (i : Nat) (d : α)
    (h : i < l.length) : l.getD i d ∈ l := by
  rw [getD_eq_getElem' l d i h]
  exact List.get_mem l i h

/-- View of the dequeued segment after the swap: slot i now shows the empty
sentinel, every other slot is unchanged. -/
theorem segView_final {T : Type} (sb : PQueue T) (a i p : Nat)
    (hlen : i < (sb.segH a).slots.length)
    (hp : getSlot sb a i = p)
    (hnd : (sb.segH a).slots.Nodup)
    (hbnd : ∀ q, q ∈ (sb.segH a).slots → q < sb.freshB) :
    segView (writeBox (setSlot (allocBox sb none).2 a i sb.freshB) p none) a
      = (segView sb a).set i none := by
  have hpi : p = (sb.segH a).slots.get ⟨i, hlen⟩ := by
    rw [← hp]
    exact (getD_eq_getElem' _ 0 i hlen)
  have hpmem : p ∈ (sb.segH a).slots := by
    rw [hpi]
    exact List.get_mem _ _ _
  have hplt : p < sb.freshB := hbnd p hpmem
  have hsegF : (writeBox (setSlot (allocBox sb none).2 a i sb.freshB) p
      none).segH a = PSeg.mk ((sb.segH a).slots.set i sb.freshB)
      ((sb.segH a).next) ((sb.segH a).deleted) := by
    show upd sb.segH a _ a = _
    rw [upd_self]
    rfl
  have hview : segView (writeBox (setSlot (allocBox sb none).2 a i sb.freshB)
      p none) a = ((sb.segH a).slots.set i sb.freshB).map
      (writeBox (setSlot (allocBox sb none).2 a i sb.freshB) p none).boxH := by
    unfold segView
    rw [hsegF]
  rw [hview]
  apply List.ext_getElem
  · simp [segView]
  · intro j hj1 hj2
    simp only [List.getElem_map]
    have hjlen : j < (sb.segH a).slots.length := by simpa using hj1
    have hj2l : j < (segView sb a).length := by
      rw [segView_length]
      exact hjlen
    by_cases hji : j = i
    · subst hji
      rw [List.getElem_set_self (by simpa using hjlen),
        List.getElem_set_self (by simpa using hj2)]
      show upd (upd sb.boxH sb.freshB none) p none sb.freshB = none
      rw [upd_ne _ _ _ _ (by omega), upd_self]
    · rw [List.getElem_set_ne (fun hc => hji hc.symm),
        List.getElem_set_ne (fun hc => hji hc.symm)]
      have hmem : (sb.segH a).slots[j] ∈ (sb.segH a).slots :=
        List.getElem_mem _
      have hne1 : (sb.segH a).slots[j] ≠ p := by
        intro hc
        apply hji
        have hip : (sb.segH a).slots[j] = (sb.segH a).slots[i] := by
          rw [hc, hpi]
          simp [List.get_eq_getElem]
        exact (hnd.getElem_inj_iff).mp hip
      have hne2 : (sb.segH a).slots[j] ≠ sb.freshB := by
        have := hbnd _ hmem
        omega
      simp only [segView, List.getElem_map]
      show upd (upd sb.boxH sb.freshB none) p none _ = sb.boxH _
      rw [upd_ne _ _ _ _ hne1, upd_ne _ _ _ _ hne2]

/-- View of any other segment is untouched by the dequeue swap, provided its
slots are disjoint from the freed payload box and below the allocation
counter. -/
theorem segView_final_other {T : Type} (sb : PQueue T) (a b i p : Nat)
    (hba : b ≠ a)
    (hbnd : ∀ q, q ∈ (sb.segH b).slots → q < sb.freshB)
    (hpnb : p ∉ (sb.segH b).slots) :
    segView (writeBox (setSlot (allocBox sb none).2 a i sb.freshB) p none) b
      = segView sb b ∧
    (writeBox (setSlot (allocBox sb none).2 a i sb.freshB) p none).segH b
      = sb.segH b := by
  have hseg : (writeBox (setSlot (allocBox sb none).2 a i sb.freshB) p
      none).segH b = sb.segH b := by
    show upd sb.segH a _ b = _
    rw [upd_ne _ _ _ _ hba]
  refine ⟨?_, hseg⟩
  unfold segView
  rw [hseg]
  apply List.map_congr_left
  intro q hq
  have hq1 : q ≠ p := fun hc => hpnb (hc ▸ hq)
  have hq2 : q ≠ sb.freshB := by
    have := hbnd q hq
    omega
  show upd (upd sb.boxH sb.freshB none) p none q = sb.boxH q
  rw [upd_ne _ _ _ _ hq1, upd_ne _ _ _ _ hq2]

theorem segView_setDeleted_ne {T : Type} (s : PQueue T) (a b : Nat)
    (hba : b ≠ a) :
    segView (setDeleted s a) b = segView s b ∧
    (setDeleted s a).segH b = s.segH b := by
  have hseg : (setDeleted s a).segH b = s.segH b := by
    show upd s.segH a _ b = _
    rw [upd_ne _ _ _ _ hba]
  refine ⟨?_, hseg⟩
  unfold segView
  rw [hseg]
  rfl

/-- The view of a live segment is untouched by advance_tail (its slots are
below the allocation counter; only the next pointer of the old tail and the
fresh segment change). -/
theorem segView_advance_tail {T : Type} (s : PQueue T)
    (h0 : (s.segH s.tail).next = 0) (htl : s.tail ≠ s.freshS) (b : Nat)
    (hbnd : ∀ q, q ∈ (s.segH b).slots → q < s.freshB)
    (hb : b = s.tail ∨ (b ≠ s.tail ∧ b ≠ s.freshS)) :
    segView (advance_tail s s.tail) b = segView s b ∧
    ((advance_tail s s.tail).segH b).slots = (s.segH b).slots := by
  obtain ⟨a1, a2, a3, a4, a5, a6, a7, a8, a9⟩ := advance_tail_spec s h0 htl
  have hslots : ((advance_tail s s.tail).segH b).slots = (s.segH b).slots := by
    rcases hb with hb | ⟨hb1, hb2⟩
    · subst hb
      rw [a6]
    · rw [a8 b hb1 hb2]
  refine ⟨?_, hslots⟩
  unfold segView
  rw [hslots]
  apply List.map_congr_left
  intro q hq
  exact a9 q (hbnd q hq)

/-- View of the tail segment after an enqueue stored the fresh payload box
into slot i: that slot now shows the payload, every other slot is
unchanged. -/
theorem segView_enqueue {T : Type} (s : PQueue T) (a i : Nat) (v : T)
    (hlen : i < (s.segH a).slots.length)
    (hbnd : ∀ q, q ∈ (s.segH a).slots → q < s.freshB) :
    segView ((allocBox (setSlot (allocBox s (some v)).2 a i s.freshB)
      (none : Option T)).2) a = (segView s a).set i (some v) := by
  have hsegF : ((allocBox (setSlot (allocBox s (some v)).2 a i s.freshB)
      (none : Option T)).2).segH a = PSeg.mk ((s.segH a).slots.set i s.freshB)
      ((s.segH a).next) ((s.segH a).deleted) := by
    show upd s.segH a _ a = _
    rw [upd_self]
    rfl
  have hview : segView ((allocBox (setSlot (allocBox s (some v)).2 a i
      s.freshB) (none : Option T)).2) a =
      ((s.segH a).slots.set i s.freshB).map
        ((allocBox (setSlot (allocBox s (some v)).2 a i s.freshB)
          (none : Option T)).2).boxH := by
    unfold segView
    rw [hsegF]
  rw [hview]
  apply List.ext_getElem
  · simp [segView]
  · intro j hj1 hj2
    simp only [List.getElem_map]
    have hjlen : j < (s.segH a).slots.length := by simpa using hj1
    by_cases hji : j = i
    · subst hji
      rw [List.getElem_set_self (by simpa using hjlen),
        List.getElem_set_self (by simpa using hj2)]
      show upd (upd s.boxH s.freshB (some v)) (s.freshB + 1) none s.freshB =
        some v
      rw [upd_ne _ _ _ _ (by omega), upd_self]
    · rw [List.getElem_set_ne (fun hc => hji hc.symm),
        List.getElem_set_ne (fun hc => hji hc.symm)]
      have hmem : (s.segH a).slots[j] ∈ (s.segH a).slots := List.getElem_mem _
      have hlt := hbnd _ hmem
      simp only [segView, List.getElem_map]
      show upd (upd s.boxH s.freshB (some v)) (s.freshB + 1) none _ = s.boxH _
      rw [upd_ne _ _ _ _ (by omega), upd_ne _ _ _ _ (by omega)]

theorem enqShape_init : EnqShape (queueNew Nat 4) [] := by
  refine ⟨rfl, rfl, rfl, rfl, rfl, rfl, rfl, by decide, ?_, ?_, ?_⟩
  · intro q hq
    have hs : ((queueNew Nat 4).segH 1).slots = [1, 2, 3, 4] := rfl
    rw [hs] at hq
    have hfb : (queueNew Nat 4).freshB = 5 := rfl
    rw [hfb]
    simp at hq
    omega
  · have hs : ((queueNew Nat 4).segH 1).slots = [1, 2, 3, 4] := rfl
    rw [hs]
    decide
  · exact List.Perm.refl _

/-- One whole enqueue of the scenario's filling phase: with room left in the
single segment, the call commits on its first try and adds v to the
contents. -/
theorem enqueue_shape_step (s : PQueue Nat) (cnt : List Nat) (v : Nat)
    (os : Nat → List Nat) (m : Nat)
    (hs : EnqShape s cnt) (hos : (os 0).Perm (List.range 4))
    (hroom : cnt.length < 4) :
    ∃ i, i < ((s.segH 1).slots).length ∧
      enqueue (m + 1) s v os =
        some ((allocBox (setSlot (allocBox s (some v)).2 1 i s.freshB)
          (none : Option Nat)).2) ∧
      EnqShape ((allocBox (setSlot (allocBox s (some v)).2 1 i s.freshB)
        (none : Option Nat)).2) (v :: cnt) := by
  have hlenvw : (segView s 1).length = 4 := by
    rw [segView_length, hs.len]
  have hfmlen : ((segView s 1).filterMap id).length = cnt.length :=
    hs.cont.length_eq
  have hlt : ((segView s 1).filterMap id).length < (segView s 1).length := by
    rw [hfmlen, hlenvw]
    omega
  obtain ⟨i0, hi0lt, hi0none⟩ := exists_getD_none _ hlt
  have hi0lt4 : i0 < 4 := by
    rw [hlenvw] at hi0lt
    exact hi0lt
  have hi0mem : i0 ∈ os 0 :=
    (List.Perm.mem_iff hos.symm).mp (List.mem_range.mpr hi0lt4)
  have hi0len : i0 < (s.segH 1).slots.length := by
    rw [hs.len]
    exact hi0lt4
  have hi0slot : s.boxH (getSlot s 1 i0) = none := by
    rw [← segView_getD s 1 i0 hi0len]
    exact hi0none
  -- hypotheses of try_enqueue_succ, at the payload-allocated state
  have hj1 : (allocBox s (some v)).2.boxH
      (getSlot (allocBox s (some v)).2 (allocBox s (some v)).2.tail i0) =
      none := by
    have hq : getSlot s 1 i0 ∈ (s.segH 1).slots := mem_of_getD _ i0 0 hi0len
    have hqlt := hs.bnd _ hq
    show upd s.boxH s.freshB (some v) (getSlot s s.tail i0) = none
    rw [hs.tl, upd_ne _ _ _ _ (by omega)]
    exact hi0slot
  have hlenAll : ∀ i, i ∈ os 0 →
      i < (PSeg.slots ((allocBox s (some v)).2.segH
        (allocBox s (some v)).2.tail)).length := by
    intro i hi
    have : i < 4 := List.mem_range.mp ((List.Perm.mem_iff hos).mp hi)
    show i < (s.segH s.tail).slots.length
    rw [hs.tl, hs.len]
    exact this
  have hdel1 : ((allocBox s (some v)).2.segH
      (allocBox s (some v)).2.tail).deleted = false := by
    show (s.segH s.tail).deleted = false
    rw [hs.tl]
    exact hs.del
  obtain ⟨i, hio, hilen, hiempty, heq⟩ :=
    try_enqueue_succ (allocBox s (some v)).2 (allocBox s (some v)).1 (os 0)
      i0 hi0mem hj1 hlenAll hdel1
  have hilen1 : i < (s.segH 1).slots.length := by
    have : i < 4 := List.mem_range.mp ((List.Perm.mem_iff hos).mp hio)
    rw [hs.len]
    exact this
  have heq' : try_enqueue (allocBox s (some v)).2 (allocBox s (some v)).1
      (os 0) = ((allocBox (setSlot (allocBox s (some v)).2 1 i s.freshB)
        (none : Option Nat)).2, true) := by
    rw [heq, show (allocBox s (some v)).2.tail = 1 from hs.tl]
    rfl
  have henq : enqueue (m + 1) s v os =
      some ((allocBox (setSlot (allocBox s (some v)).2 1 i s.freshB)
        (none : Option Nat)).2) := by
    show enqueueLoop (m + 1) (allocBox s (some v)).2 (allocBox s (some v)).1
      os = _
    unfold enqueueLoop
    rw [heq']
  -- the slot picked is empty in s as well
  have hq1 : getSlot s 1 i ∈ (s.segH 1).slots := mem_of_getD _ i 0 hilen1
  have hqlt1 := hs.bnd _ hq1
  have hiempty1 : s.boxH (getSlot s 1 i) = none := by
    have h' : upd s.boxH s.freshB (some v) (getSlot s s.tail i) = none :=
      hiempty
    rw [hs.tl, upd_ne _ _ _ _ (by omega)] at h'
    exact h'
  have hviewnone : (segView s 1).getD i none = none := by
    rw [segView_getD s 1 i hilen1]
    exact hiempty1
  -- the new segment table at address 1
  have e1 : ((allocBox (setSlot (allocBox s (some v)).2 1 i s.freshB)
      (none : Option Nat)).2).segH 1 =
      PSeg.mk ((s.segH 1).slots.set i s.freshB) ((s.segH 1).next)
        ((s.segH 1).deleted) := by
    show upd s.segH 1 _ 1 = _
    rw [upd_self]
    rfl
  refine ⟨i, hilen1, henq, ?_⟩
  refine ⟨hs.hd, hs.tl, hs.fS, hs.kk, ?_, ?_, ?_, ?_, ?_, ?_, ?_⟩
  · rw [e1]
    exact hs.nx
  · rw [e1]
    exact hs.del
  · rw [e1]
    show ((s.segH 1).slots.set i s.freshB).length = 4
    rw [List.length_set]
    exact hs.len
  · show 1 ≤ s.freshB + 1 + 1
    omega
  · intro q hq
    rw [e1] at hq
    show q < s.freshB + 1 + 1
    rcases List.mem_or_eq_of_mem_set hq with h | h
    · have := hs.bnd _ h
      omega
    · omega
  · rw [e1]
    show ((s.segH 1).slots.set i s.freshB).Nodup
    refine nodup_set _ i s.freshB hs.nd ?_
    intro hmem
    have := hs.bnd _ hmem
    omega
  · rw [segView_enqueue s 1 i v hilen1 hs.bnd]
    have hivw : i < (segView s 1).length := by
      rw [hlenvw]
      rw [hs.len] at hilen1
      exact hilen1
    exact (filterMap_set_some _ i v hivw hviewnone).trans (hs.cont.cons v)

theorem getD_range' (b n j : Nat) (hj : j < n) :
    (List.range' b n).getD j 0 = b + j := by
  rw [getD_eq_getElem' _ _ j (by rw [List.length_range']; exact hj)]
  simp [List.get_eq_getElem, List.getElem_range']

/-- The sentinel boxes a fresh tail segment's slots point at all hold None
(advance_tail allocates them via Segment::new). -/
theorem advance_tail_boxH_new {T : Type} (s : PQueue T)
    (h0 : (s.segH s.tail).next = 0) (q : Nat)
    (hq1 : s.freshB ≤ q) (hq2 : q < s.freshB + s.k) :
    (advance_tail s s.tail).boxH q = none := by
  obtain ⟨g1, g2, g3, g4, g5, g6, g7, g8⟩ := segNew_spec s
  rw [advance_tail_next0 s h0]
  show (segNew s).2.boxH q = none
  rw [g2]
  dsimp only
  rw [if_pos ⟨hq1, hq2⟩]

/-- The fifth enqueue of the scenario: the single segment is full, so the
first try advances the tail to a fresh segment and the second try commits the
payload there. -/
theorem enqueue_full_step (s : PQueue Nat) (cnt : List Nat) (v : Nat)
    (os : Nat → List Nat) (m : Nat)
    (hs : EnqShape s cnt) (hos0 : (os 0).Perm (List.range 4))
    (hos1 : (os 1).Perm (List.range 4))
    (hfull : cnt.length = 4) :
    ∃ s', enqueue (m + 2) s v os = some s' ∧ TwoShape s' cnt [v] := by
  have hlenvw : (segView s 1).length = 4 := by
    rw [segView_length, hs.len]
  have hfmlen : ((segView s 1).filterMap id).length = (segView s 1).length := by
    rw [hs.cont.length_eq, hfull, hlenvw]
  -- first try: the segment is full
  have hall : ∀ i, i ∈ os 0 → ∃ w,
      ((allocBox s (some v)).2).boxH
        (getSlot (allocBox s (some v)).2 ((allocBox s (some v)).2).tail i) =
        some w := by
    intro i hi
    have hi4 : i < 4 := List.mem_range.mp ((List.Perm.mem_iff hos0).mp hi)
    have hilen : i < (s.segH 1).slots.length := by
      rw [hs.len]
      exact hi4
    obtain ⟨w, hw⟩ := all_some_of_length_eq _ hfmlen i (by
      rw [hlenvw]
      exact hi4)
    rw [segView_getD s 1 i hilen] at hw
    refine ⟨w, ?_⟩
    have hq : getSlot s 1 i ∈ (s.segH 1).slots := mem_of_getD _ i 0 hilen
    have hqlt := hs.bnd _ hq
    show upd s.boxH s.freshB (some v) (getSlot s s.tail i) = some w
    rw [hs.tl, upd_ne _ _ _ _ (by omega)]
    exact hw
  have htry1 : try_enqueue (allocBox s (some v)).2 (allocBox s (some v)).1
      (os 0) = (advance_tail (allocBox s (some v)).2
        ((allocBox s (some v)).2).tail, false) :=
    try_enqueue_full _ _ _ hall
  -- facts about the advanced state
  have h0 : (((allocBox s (some v)).2).segH
      ((allocBox s (some v)).2).tail).next = 0 := by
    show (s.segH s.tail).next = 0
    rw [hs.tl]
    exact hs.nx
  have htlS : ((allocBox s (some v)).2).tail ≠
      ((allocBox s (some v)).2).freshS := by
    show s.tail ≠ s.freshS
    rw [hs.tl, hs.fS]
    omega
  obtain ⟨a1, a2, a3, a4, a5, a6, a7, a8, a9⟩ :=
    advance_tail_spec (allocBox s (some v)).2 h0 htlS
  have ha2 : (advance_tail (allocBox s (some v)).2
      ((allocBox s (some v)).2).tail).tail = 2 := by
    rw [a2]
    show s.freshS = 2
    exact hs.fS
  have hafB : (advance_tail (allocBox s (some v)).2
      ((allocBox s (some v)).2).tail).freshB = s.freshB + 5 := by
    rw [a4]
    show s.freshB + 1 + s.k = s.freshB + 5
    rw [hs.kk]
  have ha7' : (advance_tail (allocBox s (some v)).2
      ((allocBox s (some v)).2).tail).segH 2 =
      PSeg.mk (List.range' (s.freshB + 1) 4) 0 false := by
    have := a7
    rw [show ((allocBox s (some v)).2).freshS = 2 from hs.fS,
      show ((allocBox s (some v)).2).freshB = s.freshB + 1 from rfl,
      show ((allocBox s (some v)).2).k = 4 from hs.kk] at this
    exact this
  -- second try: some slot of the fresh tail is empty (all of them are)
  obtain ⟨j0, hj0⟩ : ∃ j0, j0 ∈ os 1 :=
    ⟨0, (List.Perm.mem_iff hos1.symm).mp (List.mem_range.mpr (by omega))⟩
  have hj04 : j0 < 4 := List.mem_range.mp ((List.Perm.mem_iff hos1).mp hj0)
  have hnew : ∀ j, j < 4 →
      (advance_tail (allocBox s (some v)).2
        ((allocBox s (some v)).2).tail).boxH (s.freshB + 1 + j) = none := by
    intro j hj
    refine advance_tail_boxH_new _ h0 _
      (by show s.freshB + 1 ≤ s.freshB + 1 + j; omega) ?_
    show s.freshB + 1 + j < s.freshB + 1 + s.k
    rw [hs.kk]
    omega
  have hgs : ∀ j, j < 4 → getSlot (advance_tail (allocBox s (some v)).2
      ((allocBox s (some v)).2).tail) 2 j = s.freshB + 1 + j := by
    intro j hj
    unfold getSlot
    rw [ha7']
    exact getD_range' _ _ _ hj
  have hempty0 : (advance_tail (allocBox s (some v)).2
      ((allocBox s (some v)).2).tail).boxH
      (getSlot (advance_tail (allocBox s (some v)).2
        ((allocBox s (some v)).2).tail)
        (advance_tail (allocBox s (some v)).2
          ((allocBox s (some v)).2).tail).tail j0) = none := by
    rw [ha2, hgs j0 hj04]
    exact hnew j0 hj04
  have hlenAll : ∀ i, i ∈ os 1 →
      i < (PSeg.slots ((advance_tail (allocBox s (some v)).2
        ((allocBox s (some v)).2).tail).segH
        (advance_tail (allocBox s (some v)).2
          ((allocBox s (some v)).2).tail).tail)).length := by
    intro i hi
    have hi4 : i < 4 := List.mem_range.mp ((List.Perm.mem_iff hos1).mp hi)
    rw [ha2, ha7']
    simpa using hi4
  have hdel : ((advance_tail (allocBox s (some v)).2
      ((allocBox s (some v)).2).tail).segH
      (advance_tail (allocBox s (some v)).2
        ((allocBox s (some v)).2).tail).tail).deleted = false := by
    rw [ha2, ha7']
  obtain ⟨i, hio, hilen, hiempty, heq⟩ :=
    try_enqueue_succ (advance_tail (allocBox s (some v)).2
      ((allocBox s (some v)).2).tail) (allocBox s (some v)).1 (os 1)
      j0 hj0 hempty0 hlenAll hdel
  have hi4 : i < 4 := List.mem_range.mp ((List.Perm.mem_iff hos1).mp hio)
  -- name the pieces
  set at1 := advance_tail (allocBox s (some v)).2
    ((allocBox s (some v)).2).tail with hat1
  set sF := (allocBox (setSlot at1 at1.tail i (allocBox s (some v)).1)
    (none : Option Nat)).2 with hsF
  refine ⟨sF, ?_, ?_⟩
  · show enqueueLoop (m + 2) (allocBox s (some v)).2 (allocBox s (some v)).1
      os = _
    unfold enqueueLoop
    rw [htry1]
    unfold enqueueLoop
    rw [show (fun j => os (j + 1)) 0 = os 1 from rfl, heq]
  · -- TwoShape of the committed state
    have hseg1F : sF.segH 1 = PSeg.mk (PSeg.slots (at1.segH 1))
        (PSeg.next (at1.segH 1)) (PSeg.deleted (at1.segH 1)) := by
      show upd at1.segH at1.tail _ 1 = _
      rw [upd_ne _ _ _ _ (by rw [ha2]; omega)]
    have hseg1at : at1.segH 1 = PSeg.mk ((s.segH 1).slots) 2 false := by
      have h6 := a6
      rw [show ((allocBox s (some v)).2).tail = 1 from hs.tl,
        show ((allocBox s (some v)).2).freshS = 2 from hs.fS] at h6
      rw [h6]
      show PSeg.mk (s.segH 1).slots 2 (s.segH 1).deleted = _
      rw [hs.del]
    have hseg2F : sF.segH 2 = PSeg.mk
        ((List.range' (s.freshB + 1) 4).set i (allocBox s (some v)).1)
        0 false := by
      show upd at1.segH at1.tail _ 2 = _
      rw [ha2, upd_self, ha7']
    have hfBF : sF.freshB = s.freshB + 6 := by
      show at1.freshB + 1 = s.freshB + 6
      rw [hafB]
    -- views
    have hview1 : segView sF 1 = segView s 1 := by
      unfold segView
      rw [hseg1F, hseg1at]
      show ((s.segH 1).slots).map sF.boxH = ((s.segH 1).slots).map s.boxH
      apply List.map_congr_left
      intro q hq
      have hqlt := hs.bnd _ hq
      show upd at1.boxH at1.freshB none q = s.boxH q
      rw [upd_ne _ _ _ _ (by rw [hafB]; omega)]
      have h9 := a9 q (show q < ((allocBox s (some v)).2).freshB by
        show q < s.freshB + 1
        omega)
      rw [h9]
      show upd s.boxH s.freshB (some v) q = s.boxH q
      rw [upd_ne _ _ _ _ (by omega)]
    have hmap2 : segView sF 2 =
        ((List.range' (s.freshB + 1) 4).map sF.boxH).set i (some v) := by
      unfold segView
      rw [hseg2F]
      show ((List.range' (s.freshB + 1) 4).set i (allocBox s (some v)).1).map
        sF.boxH = _
      rw [List.map_set]
      have hv : sF.boxH (allocBox s (some v)).1 = some v := by
        show upd at1.boxH at1.freshB none s.freshB = some v
        rw [upd_ne _ _ _ _ (by rw [hafB]; omega)]
        have h9 := a9 s.freshB (show s.freshB < ((allocBox s (some v)).2).freshB
          by show s.freshB < s.freshB + 1; omega)
        rw [h9]
        show upd s.boxH s.freshB (some v) s.freshB = some v
        rw [upd_self]
      rw [hv]
    have hrep : (List.range' (s.freshB + 1) 4).map sF.boxH =
        List.replicate 4 (none : Option Nat) := by
      refine List.eq_replicate.mpr ⟨by simp, ?_⟩
      intro b hb
      obtain ⟨q, hqmem, hqeq⟩ := List.mem_map.mp hb
      obtain ⟨jj, hjj, hjeq⟩ := List.mem_range'.mp hqmem
      subst hqeq
      have hq : sF.boxH q = none := by
        show upd at1.boxH at1.freshB none q = none
        by_cases hqf : q = at1.freshB
        · rw [hqf, upd_self]
        · rw [upd_ne _ _ _ _ hqf]
          rw [hat1]
          refine advance_tail_boxH_new _ h0 _
            (by show s.freshB + 1 ≤ q; omega) ?_
          show q < s.freshB + 1 + s.k
          rw [hs.kk]
          omega
      rw [← hq, hjeq]
    refine ⟨?_, ?_, ?_, ?_, ?_, ?_, ?_, ?_, ?_, ?_, ?_, ?_, ?_, ?_, ?_, ?_,
      ?_⟩
    · show at1.head = 1
      rw [a1]
      exact hs.hd
    · show at1.tail = 2
      exact ha2
    · show at1.freshS = 3
      rw [a3]
      show s.freshS + 1 = 3
      rw [hs.fS]
    · show at1.k = 4
      rw [a5]
      exact hs.kk
    · rw [hseg1F, hseg1at]
    · rw [hseg1F, hseg1at]
    · rw [hseg1F, hseg1at]
      exact hs.len
    · intro q hq
      rw [hseg1F, hseg1at] at hq
      have := hs.bnd _ hq
      rw [hfBF]
      omega
    · rw [hseg1F, hseg1at]
      exact hs.nd
    · rw [hview1]
      exact hs.cont
    · rw [hseg2F]
    · rw [hseg2F]
    · rw [hseg2F]
      simp
    · intro q hq
      rw [hseg2F] at hq
      rw [hfBF]
      rcases List.mem_or_eq_of_mem_set hq with h | h
      · obtain ⟨jj, hjj, hjeq⟩ := List.mem_range'.mp h
        omega
      · subst h
        show s.freshB < s.freshB + 6
        omega
    · rw [hseg2F]
      show ((List.range' (s.freshB + 1) 4).set i (allocBox s (some v)).1).Nodup
      refine nodup_set _ i _ ?_ ?_
      · exact List.nodup_range' _ _
      · intro hmem
        obtain ⟨jj, hjj, hjeq⟩ := List.mem_range'.mp hmem
        have : (allocBox s (some v)).1 = s.freshB := rfl
        omega
    · rw [hmap2, hrep]
      have hgd : (List.replicate 4 (none : Option Nat)).getD i none = none := by
        rw [getD_eq_getElem' _ _ i (by simpa using hi4)]
        simp only [List.get_eq_getElem]
        interval_cases i <;> rfl
      have hperm := filterMap_set_some (List.replicate 4 (none : Option Nat))
        i v (by simpa using hi4) hgd
      refine hperm.trans ?_
      show (v :: (List.replicate 4 (none : Option Nat)).filterMap id).Perm [v]
      exact List.Perm.refl _
    · intro q hq hq2
      rw [hseg1F, hseg1at] at hq
      rw [hseg2F] at hq2
      have hqlt := hs.bnd _ hq
      rcases List.mem_or_eq_of_mem_set hq2 with h | h
      · obtain ⟨jj, hjj, hjeq⟩ := List.mem_range'.mp h
        omega
      · have : (allocBox s (some v)).1 = s.freshB := rfl
        omega

/-- One whole dequeue of the scenario's draining phase: while segment 1 still
holds values and head trails tail, the dequeue returns one of segment 1's
values and removes exactly it. -/
theorem dequeue_twoShape_step (s : PQueue Nat) (c1 c2 : List Nat)
    (os : Nat → List Nat) (m : Nat)
    (hs : TwoShape s c1 c2) (hos : (os 0).Perm (List.range 4))
    (hne : c1 ≠ []) :
    ∃ w s', w ∈ c1 ∧ dequeueLoop (m + 1) s os = some (s', some w) ∧
      TwoShape s' (c1.erase w) c2 := by
  -- find an occupied slot of segment 1
  obtain ⟨x, hx⟩ := List.exists_mem_of_ne_nil c1 hne
  have hxfm : x ∈ (segView s 1).filterMap id :=
    (List.Perm.mem_iff hs.cont1).mpr hx
  obtain ⟨j, hjlt, hjg⟩ := exists_getD_some _ x hxfm
  have hjlen : j < (s.segH 1).slots.length := by
    rw [← segView_length]
    exact hjlt
  have hj4 : j < 4 := by
    rw [hs.len1] at hjlen
    exact hjlen
  have hjmem : j ∈ os 0 :=
    (List.Perm.mem_iff hos.symm).mp (List.mem_range.mpr hj4)
  have hjslot : s.boxH (getSlot s 1 j) = some x := by
    rw [← segView_getD s 1 j hjlen]
    exact hjg
  obtain ⟨i, p, w, hfi, hio, hpg, hw⟩ := by
    have := find_item_found s 1 (os 0) j x hjmem hjslot
    rw [← hs.hd] at this
    exact this
  have hi4 : i < 4 := List.mem_range.mp ((List.Perm.mem_iff hos).mp hio)
  have hilen : i < (s.segH 1).slots.length := by
    rw [hs.len1]
    exact hi4
  have hpg1 : p = getSlot s 1 i := by
    rw [hpg, hs.hd]
  have hpmem : p ∈ (s.segH 1).slots := by
    rw [hpg1]
    exact mem_of_getD _ i 0 hilen
  have hpb : p < s.freshB := hs.bnd1 p hpmem
  -- the value found is one of c1's
  have hwfm : w ∈ (segView s 1).filterMap id := by
    refine (mem_filterMap_id _ w).mpr ?_
    have hg : (segView s 1).getD i none = some w := by
      rw [segView_getD s 1 i hilen, ← hpg1]
      exact hw
    rw [← hg]
    exact mem_of_getD _ i none (by rw [segView_length]; exact hilen)
  have hwc1 : w ∈ c1 := (List.Perm.mem_iff hs.cont1).mp hwfm
  -- run try_dequeue
  have hhne : s.head ≠ s.tail := by
    rw [hs.hd, hs.tl]
    omega
  have htd := try_dequeue_found_ne s (os 0) i p hhne hfi hpb
  have hval : s.boxH p = some w := hw
  refine ⟨w, writeBox (setSlot (allocBox s none).2 s.head i s.freshB) p none,
    hwc1, ?_, ?_⟩
  · show dequeueLoop (m + 1) s os = _
    unfold dequeueLoop
    rw [htd, hval]
  · -- shape of the post-dequeue state
    have hseg1F : (writeBox (setSlot (allocBox s none).2 s.head i s.freshB) p
        none).segH 1 = PSeg.mk ((s.segH 1).slots.set i s.freshB)
        ((s.segH 1).next) ((s.segH 1).deleted) := by
      show upd s.segH s.head _ 1 = _
      rw [hs.hd, upd_self]
      rfl
    have hview1 : segView (writeBox (setSlot (allocBox s none).2 s.head i
        s.freshB) p none) 1 = (segView s 1).set i none := by
      have hsf := segView_final s 1 i p hilen hpg1.symm hs.nd1 hs.bnd1
      rw [hs.hd]
      exact hsf
    have hpn2 : p ∉ (s.segH 2).slots := hs.disj p hpmem
    have hother := segView_final_other s 1 2 i p (by omega) hs.bnd2 hpn2
    have hother' : segView (writeBox (setSlot (allocBox s none).2 s.head i
        s.freshB) p none) 2 = segView s 2 ∧
        (writeBox (setSlot (allocBox s none).2 s.head i s.freshB) p
          none).segH 2 = s.segH 2 := by
      rw [hs.hd]
      exact hother
    refine ⟨?_, ?_, ?_, ?_, ?_, ?_, ?_, ?_, ?_, ?_, ?_, ?_, ?_, ?_, ?_, ?_,
      ?_⟩
    · show s.head = 1
      exact hs.hd
    · show s.tail = 2
      exact hs.tl
    · show s.freshS = 3
      exact hs.fS
    · show s.k = 4
      exact hs.kk
    · rw [hseg1F]
      exact hs.nx1
    · rw [hseg1F]
      exact hs.del1
    · rw [hseg1F]
      show ((s.segH 1).slots.set i s.freshB).length = 4
      rw [List.length_set]
      exact hs.len1
    · intro q hq
      rw [hseg1F] at hq
      show q < s.freshB + 1
      rcases List.mem_or_eq_of_mem_set hq with h | h
      · have := hs.bnd1 _ h
        omega
      · omega
    · rw [hseg1F]
      show ((s.segH 1).slots.set i s.freshB).Nodup
      refine nodup_set _ i s.freshB hs.nd1 ?_
      intro hmem
      have := hs.bnd1 _ hmem
      omega
    · rw [hview1]
      have hgi : (segView s 1).getD i none = some w := by
        rw [segView_getD s 1 i hilen, ← hpg1]
        exact hw
      have hperm := filterMap_set_none (segView s 1) i w
        (by rw [segView_length]; exact hilen) hgi
      have hc1 : c1.Perm (w :: c1.erase w) := List.perm_cons_erase hwc1
      have hchain : (w :: ((segView s 1).set i none).filterMap id).Perm
          (w :: c1.erase w) := hperm.symm.trans (hs.cont1.trans hc1)
      exact hchain.cons_inv
    · rw [hother'.2]
      exact hs.nx2
    · rw [hother'.2]
      exact hs.del2
    · rw [hother'.2]
      exact hs.len2
    · intro q hq
      rw [hother'.2] at hq
      have := hs.bnd2 _ hq
      show q < s.freshB + 1
      omega
    · rw [hother'.2]
      exact hs.nd2
    · rw [hother'.1]
      exact hs.cont2
    · intro q hq hq2
      rw [hseg1F] at hq
      rw [hother'.2] at hq2
      rcases List.mem_or_eq_of_mem_set hq with h | h
      · exact hs.disj q h hq2
      · subst h
        have := hs.bnd2 _ hq2
        omega

/-- The last two dequeues of the scenario: with segment 1 drained and segment
2 holding the single value v, the next dequeue advances the head past segment
1 and returns v (linking a fresh tail segment on the way, since head caught up
with tail), and the dequeue after that advances the head again and reports the
queue empty. -/
theorem dequeue_last_two (s : PQueue Nat) (v : Nat)
    (os os' : Nat → List Nat) (m m' : Nat)
    (hs : TwoShape s [] [v])
    (hos0 : (os 0).Perm (List.range 4)) (hos1 : (os 1).Perm (List.range 4))
    (hosB0 : (os' 0).Perm (List.range 4))
    (hosB1 : (os' 1).Perm (List.range 4)) :
    ∃ u w1, dequeueLoop (m + 2) s os = some (u, some v) ∧
      dequeueLoop (m' + 2) u os' = some (w1, none) := by
  -- segment 1 is fully drained
  have hfm1 : (segView s 1).filterMap id = [] := List.Perm.eq_nil hs.cont1
  have hfi1 : find_item s s.head (os 0) = none := by
    rw [hs.hd]
    refine find_item_none s 1 (os 0) ?_
    intro i hi
    have hi4 : i < 4 := List.mem_range.mp ((List.Perm.mem_iff hos0).mp hi)
    have hilen : i < (s.segH 1).slots.length := by
      rw [hs.len1]
      exact hi4
    rw [← segView_getD s 1 i hilen]
    exact all_none_of_filterMap_nil _ hfm1 i
  have hnx1' : (s.segH s.head).next ≠ 0 := by
    rw [hs.hd, hs.nx1]
    omega
  have htne : s.tail ≠ s.head := by
    rw [hs.hd, hs.tl]
    omega
  have htd1 := try_dequeue_advance s (os 0) htne hfi1 hnx1'
  set t1 := setDeleted { s with head := (s.segH s.head).next } s.head with ht1
  have ht1hd : t1.head = 2 := by
    show (s.segH s.head).next = 2
    rw [hs.hd]
    exact hs.nx1
  have ht1tl : t1.tail = 2 := hs.tl
  have ht1fS : t1.freshS = 3 := hs.fS
  have ht1fB : t1.freshB = s.freshB := rfl
  have ht1k : t1.k = 4 := hs.kk
  have ht1seg2 : t1.segH 2 = s.segH 2 := by
    show upd s.segH s.head _ 2 = s.segH 2
    rw [hs.hd, upd_ne _ _ _ _ (by omega)]
  have hview2t1 : segView t1 2 = segView s 2 := by
    unfold segView
    rw [ht1seg2]
    rfl
  -- find the occupied slot of segment 2
  have hvfm : v ∈ (segView s 2).filterMap id :=
    (List.Perm.mem_iff hs.cont2).mpr (List.mem_singleton.mpr rfl)
  obtain ⟨j, hjlt, hjg⟩ := exists_getD_some _ v hvfm
  have hjlen : j < (s.segH 2).slots.length := by
    rw [← segView_length]
    exact hjlt
  have hj4 : j < 4 := by
    rw [hs.len2] at hjlen
    exact hjlen
  have hjmem : j ∈ os 1 :=
    (List.Perm.mem_iff hos1.symm).mp (List.mem_range.mpr hj4)
  have hjslot : t1.boxH (getSlot t1 2 j) = some v := by
    show s.boxH (getSlot t1 2 j) = some v
    have : getSlot t1 2 j = getSlot s 2 j := by
      unfold getSlot
      rw [ht1seg2]
    rw [this, ← segView_getD s 2 j hjlen]
    exact hjg
  obtain ⟨i, p, w, hfi2, hio, hpg, hw⟩ :=
    find_item_found t1 2 (os 1) j v hjmem hjslot
  have hi4 : i < 4 := List.mem_range.mp ((List.Perm.mem_iff hos1).mp hio)
  have hilen : i < (s.segH 2).slots.length := by
    rw [hs.len2]
    exact hi4
  have hgsti : getSlot t1 2 i = getSlot s 2 i := by
    unfold getSlot
    rw [ht1seg2]
  have hpg' : p = getSlot s 2 i := by
    rw [hpg, hgsti]
  have hpmem : p ∈ (s.segH 2).slots := by
    rw [hpg']
    exact mem_of_getD _ i 0 hilen
  have hpb : p < s.freshB := hs.bnd2 p hpmem
  -- the value found is v (segment 2 holds nothing else)
  have hwv : w = v := by
    have hg : (segView s 2).getD i none = some w := by
      rw [segView_getD s 2 i hilen, ← hpg']
      exact hw
    have hwfm : w ∈ (segView s 2).filterMap id := by
      refine (mem_filterMap_id _ w).mpr ?_
      rw [← hg]
      exact mem_of_getD _ i none (by rw [segView_length]; exact hilen)
    exact List.mem_singleton.mp ((List.Perm.mem_iff hs.cont2).mp hwfm)
  subst hwv
  -- run the second try of dequeue 5
  have hfi2' : find_item t1 t1.head (os 1) = some (i, p) := by
    rw [ht1hd]
    exact hfi2
  have hheq : t1.head = t1.tail := by
    rw [ht1hd, ht1tl]
  have h02 : (t1.segH t1.tail).next = 0 := by
    rw [ht1tl, ht1seg2]
    exact hs.nx2
  have htlS : t1.tail ≠ t1.freshS := by
    rw [ht1tl, ht1fS]
    omega
  have hpbt1 : p < t1.freshB := by
    rw [ht1fB]
    exact hpb
  have htd2 := try_dequeue_found_eq t1 (os 1) i p hheq h02 htlS hfi2' hpbt1
  obtain ⟨b1, b2, b3, b4, b5, b6, b7, b8, b9⟩ := advance_tail_spec t1 h02 htlS
  set at2 := advance_tail t1 t1.tail with hat2
  set u := writeBox (setSlot (allocBox at2 none).2 t1.head i at2.freshB) p
    none with hu
  have hval : t1.boxH p = some w := hw
  have hfirst : dequeueLoop (m + 2) s os = some (u, some w) := by
    unfold dequeueLoop
    rw [htd1]
    unfold dequeueLoop
    rw [show (fun j => os (j + 1)) 0 = os 1 from rfl, htd2, hval]
  -- facts about u for dequeue 6
  have hat2hd : at2.head = 2 := by
    rw [b1, ht1hd]
  have hat2tl : at2.tail = 3 := by
    rw [b2, ht1fS]
  have hat2fS : at2.freshS = 4 := by
    rw [b3, ht1fS]
  have hat2fB : at2.freshB = s.freshB + 4 := by
    rw [b4, ht1fB, ht1k]
  have hat2seg2 : at2.segH 2 = PSeg.mk ((s.segH 2).slots) 3
      ((s.segH 2).deleted) := by
    have h6 := b6
    rw [ht1tl, ht1fS, ht1seg2] at h6
    exact h6
  have hat2seg3 : at2.segH 3 = PSeg.mk (List.range' s.freshB 4) 0 false := by
    have h7 := b7
    rw [ht1fS, ht1fB, ht1k] at h7
    exact h7
  have huhd : u.head = 2 := by
    show at2.head = 2
    exact hat2hd
  have hutl : u.tail = 3 := by
    show at2.tail = 3
    exact hat2tl
  have huseg2 : u.segH 2 = PSeg.mk (((s.segH 2).slots).set i at2.freshB) 3
      ((s.segH 2).deleted) := by
    show upd at2.segH t1.head _ 2 = _
    rw [ht1hd, upd_self]
    show PSeg.mk (((at2.segH 2).slots).set i at2.freshB)
      ((at2.segH 2).next) ((at2.segH 2).deleted) = _
    rw [hat2seg2]
  have huseg3 : u.segH 3 = PSeg.mk (List.range' s.freshB 4) 0 false := by
    show upd at2.segH t1.head _ 3 = _
    rw [ht1hd, upd_ne _ _ _ _ (by omega)]
    exact hat2seg3
  -- segment 2 is drained in u
  have hbnd2at : ∀ q, q ∈ (at2.segH t1.head).slots → q < at2.freshB := by
    intro q hq
    rw [ht1hd, hat2seg2] at hq
    have := hs.bnd2 _ hq
    rw [hat2fB]
    omega
  have hlenat : i < (at2.segH t1.head).slots.length := by
    rw [ht1hd, hat2seg2]
    exact hilen
  have hpat : getSlot at2 t1.head i = p := by
    unfold getSlot
    rw [ht1hd, hat2seg2]
    exact hpg'.symm
  have hndat : (at2.segH t1.head).slots.Nodup := by
    rw [ht1hd, hat2seg2]
    exact hs.nd2
  have hviewU : segView u t1.head = (segView at2 t1.head).set i none :=
    segView_final at2 t1.head i p hlenat hpat hndat hbnd2at
  have hviewat : segView at2 t1.head = segView s 2 := by
    have hsv := segView_advance_tail t1 h02 htlS 2 (by
      intro q hq
      rw [ht1seg2] at hq
      rw [ht1fB]
      exact hs.bnd2 _ hq) (Or.inl ht1tl.symm)
    rw [ht1hd]
    rw [← hat2]  at hsv
    rw [hsv.1, hview2t1]
  have hviewU2 : segView u 2 = (segView s 2).set i none := by
    have h1 := hviewU
    rw [ht1hd] at h1
    have h2 := hviewat
    rw [ht1hd] at h2
    rw [h1, h2]
  have hgi : (segView s 2).getD i none = some w := by
    rw [segView_getD s 2 i hilen, ← hpg']
    exact hw
  have hfmU : (segView u 2).filterMap id = [] := by
    have hperm := filterMap_set_none (segView s 2) i w
      (by rw [segView_length]; exact hilen) hgi
    have hchain : (w :: ((segView s 2).set i none).filterMap id).Perm
        (w :: []) := hperm.symm.trans hs.cont2
    have := hchain.cons_inv
    rw [hviewU2]
    exact List.Perm.eq_nil this
  have hulen2 : (u.segH 2).slots.length = 4 := by
    rw [huseg2]
    show (((s.segH 2).slots).set i at2.freshB).length = 4
    rw [List.length_set]
    exact hs.len2
  -- first try of dequeue 6: segment 2 empty, head advances to segment 3
  have hfiU : find_item u u.head (os' 0) = none := by
    rw [huhd]
    refine find_item_none u 2 (os' 0) ?_
    intro i' hi'
    have hi4' : i' < 4 := List.mem_range.mp ((List.Perm.mem_iff hosB0).mp hi')
    have hilen' : i' < (u.segH 2).slots.length := by
      rw [hulen2]
      exact hi4'
    rw [← segView_getD u 2 i' hilen']
    exact all_none_of_filterMap_nil _ hfmU i'
  have hnxU : (u.segH u.head).next ≠ 0 := by
    rw [huhd, huseg2]
    dsimp only
    omega
  have htneU : u.tail ≠ u.head := by
    rw [huhd, hutl]
    omega
  have htdU1 := try_dequeue_advance u (os' 0) htneU hfiU hnxU
  set w1 := setDeleted { u with head := (u.segH u.head).next } u.head
    with hw1
  have hw1hd : w1.head = 3 := by
    show (u.segH u.head).next = 3
    rw [huhd, huseg2]
  have hw1seg3 : w1.segH 3 = PSeg.mk (List.range' s.freshB 4) 0 false := by
    show upd u.segH u.head _ 3 = _
    rw [huhd, upd_ne _ _ _ _ (by omega)]
    exact huseg3
  -- second try of dequeue 6: segment 3 all sentinels, next null
  have hbox3 : ∀ q, s.freshB ≤ q → q < s.freshB + 4 → w1.boxH q = none := by
    intro q hq1 hq2
    show upd (upd at2.boxH at2.freshB none) p none q = none
    rw [upd_ne _ _ _ _ (by omega),
      upd_ne _ _ _ _ (by rw [hat2fB]; omega)]
    rw [hat2]
    refine advance_tail_boxH_new t1 h02 q (by rw [ht1fB]; exact hq1) ?_
    rw [ht1fB, ht1k]
    exact hq2
  have hfiU2 : find_item w1 w1.head (os' 1) = none := by
    rw [hw1hd]
    refine find_item_none w1 3 (os' 1) ?_
    intro i' hi'
    have hi4' : i' < 4 := List.mem_range.mp ((List.Perm.mem_iff hosB1).mp hi')
    have hgs : getSlot w1 3 i' = s.freshB + i' := by
      unfold getSlot
      rw [hw1seg3]
      exact getD_range' _ _ _ hi4'
    rw [hgs]
    exact hbox3 _ (by omega) (by omega)
  have hnxU2 : (w1.segH w1.head).next = 0 := by
    rw [hw1hd, hw1seg3]
  have htdU2 := try_dequeue_none w1 (os' 1) hfiU2 hnxU2
  have hsecond : dequeueLoop (m' + 2) u os' = some (w1, none) := by
    unfold dequeueLoop
    rw [htdU1]
    unfold dequeueLoop
    rw [show (fun j => os' (j + 1)) 0 = os' 1 from rfl, htdU2]
  exact ⟨u, w1, hfirst, hsecond⟩

/-- C7: for a segmented queue created with k = 4, after enqueueing 3, 4, 5,
6, 7 in that order, the first four dequeues return Some of the elements of
{3, 4, 5, 6} — one each, so all distinct — for every random probe order
drawn, the fifth dequeue returns Some 7, and the sixth returns None. -/
theorem seg_queue_k4_scenario (os : Nat → Nat → List Nat)
    (hos : ∀ n j, (os n j).Perm (List.range 4)) :
    ∃ s1 s2 s3 s4 s5 t1 t2 t3 t4 t5 t6 v1 v2 v3 v4,
      enqueue 2 (queueNew Nat 4) 3 (os 0) = some s1 ∧
      enqueue 2 s1 4 (os 1) = some s2 ∧
      enqueue 2 s2 5 (os 2) = some s3 ∧
      enqueue 2 s3 6 (os 3) = some s4 ∧
      enqueue 2 s4 7 (os 4) = some s5 ∧
      dequeueLoop 2 s5 (os 5) = some (t1, some v1) ∧
      dequeueLoop 2 t1 (os 6) = some (t2, some v2) ∧
      dequeueLoop 2 t2 (os 7) = some (t3, some v3) ∧
      dequeueLoop 2 t3 (os 8) = some (t4, some v4) ∧
      dequeueLoop 2 t4 (os 9) = some (t5, some 7) ∧
      dequeueLoop 2 t5 (os 10) = some (t6, none) ∧
      [v1, v2, v3, v4].Perm [3, 4, 5, 6] := by
  obtain ⟨i1, _, he1, hq1⟩ := enqueue_shape_step (queueNew Nat 4) [] 3
    (os 0) 1 enqShape_init (hos 0 0) (by decide)
  obtain ⟨i2, _, he2, hq2⟩ := enqueue_shape_step _ [3] 4
    (os 1) 1 hq1 (hos 1 0) (by decide)
  obtain ⟨i3, _, he3, hq3⟩ := enqueue_shape_step _ [4, 3] 5
    (os 2) 1 hq2 (hos 2 0) (by decide)
  obtain ⟨i4, _, he4, hq4⟩ := enqueue_shape_step _ [5, 4, 3] 6
    (os 3) 1 hq3 (hos 3 0) (by decide)
  obtain ⟨s5, he5, hts⟩ := enqueue_full_step _ [6, 5, 4, 3] 7
    (os 4) 0 hq4 (hos 4 0) (hos 4 1) rfl
  obtain ⟨w1, t1, hw1, hd1, hts1⟩ := dequeue_twoShape_step s5 [6, 5, 4, 3] [7]
    (os 5) 1 hts (hos 5 0) (by simp)
  have hl1 : ([6, 5, 4, 3].erase w1).length = 3 := by
    rw [List.length_erase_of_mem hw1]
    rfl
  obtain ⟨w2, t2, hw2, hd2, hts2⟩ := dequeue_twoShape_step t1 _ [7]
    (os 6) 1 hts1 (hos 6 0) (by
      intro hc
      rw [hc] at hl1
      cases hl1)
  have hl2 : (([6, 5, 4, 3].erase w1).erase w2).length = 2 := by
    rw [List.length_erase_of_mem hw2, hl1]
  obtain ⟨w3, t3, hw3, hd3, hts3⟩ := dequeue_twoShape_step t2 _ [7]
    (os 7) 1 hts2 (hos 7 0) (by
      intro hc
      rw [hc] at hl2
      cases hl2)
  have hl3 : ((([6, 5, 4, 3].erase w1).erase w2).erase w3).length = 1 := by
    rw [List.length_erase_of_mem hw3, hl2]
  obtain ⟨w4, t4, hw4, hd4, hts4⟩ := dequeue_twoShape_step t3 _ [7]
    (os 8) 1 hts3 (hos 8 0) (by
      intro hc
      rw [hc] at hl3
      cases hl3)
  have hl4 : (((([6, 5, 4, 3].erase w1).erase w2).erase w3).erase w4).length
      = 0 := by
    rw [List.length_erase_of_mem hw4, hl3]
  have hnil : ((([6, 5, 4, 3].erase w1).erase w2).erase w3).erase w4 = [] :=
    List.eq_nil_of_length_eq_zero hl4
  rw [hnil] at hts4
  obtain ⟨t5, t6, hd5, hd6⟩ := dequeue_last_two t4 7 (os 9) (os 10) 0 0 hts4
    (hos 9 0) (hos 9 1) (hos 10 0) (hos 10 1)
  have hperm : [w1, w2, w3, w4].Perm [3, 4, 5, 6] := by
    have p1 : ([6, 5, 4, 3] : List Nat).Perm ([6, 5, 4, 3].erase w1 |>
        (w1 :: ·)) := List.perm_cons_erase hw1
    have p2 := List.perm_cons_erase hw2
    have p3 := List.perm_cons_erase hw3
    have p4 := List.perm_cons_erase hw4
    have pc : ([6, 5, 4, 3] : List Nat).Perm
        (w1 :: w2 :: w3 :: w4 ::
          ((([6, 5, 4, 3].erase w1).erase w2).erase w3).erase w4) :=
      p1.trans (List.Perm.cons w1 (p2.trans (List.Perm.cons w2
        (p3.trans (List.Perm.cons w3 p4)))))
    rw [hnil] at pc
    have hp64 : ([3, 4, 5, 6] : List Nat).Perm [6, 5, 4, 3] := by decide
    exact (hp64.trans pc).symm
  exact ⟨_, _, _, _, s5, t1, t2, t3, t4, t5, t6, w1, w2, w3, w4,
    he1, he2, he3, he4, he5, hd1, hd2, hd3, hd4, hd5, hd6, hperm⟩

/-- Concrete instantiation of the k = 4 scenario with the identity probe
order drawn every time. -/
theorem seg_queue_k4_scenario_witness :
    ∃ s1 s2 s3 s4 s5 t1 t2 t3 t4 t5 t6 v1 v2 v3 v4,
      enqueue 2 (queueNew Nat 4) 3 ((fun _ _ => [0, 1, 2, 3]) 0) = some s1 ∧
      enqueue 2 s1 4 ((fun _ _ => [0, 1, 2, 3]) 1) = some s2 ∧
      enqueue 2 s2 5 ((fun _ _ => [0, 1, 2, 3]) 2) = some s3 ∧
      enqueue 2 s3 6 ((fun _ _ => [0, 1, 2, 3]) 3) = some s4 ∧
      enqueue 2 s4 7 ((fun _ _ => [0, 1, 2, 3]) 4) = some s5 ∧
      dequeueLoop 2 s5 ((fun _ _ => [0, 1, 2, 3]) 5) = some (t1, some v1) ∧
      dequeueLoop 2 t1 ((fun _ _ => [0, 1, 2, 3]) 6) = some (t2, some v2) ∧
      dequeueLoop 2 t2 ((fun _ _ => [0, 1, 2, 3]) 7) = some (t3, some v3) ∧
      dequeueLoop 2 t3 ((fun _ _ => [0, 1, 2, 3]) 8) = some (t4, some v4) ∧
      dequeueLoop 2 t4 ((fun _ _ => [0, 1, 2, 3]) 9) = some (t5, some 7) ∧
      dequeueLoop 2 t5 ((fun _ _ => [0, 1, 2, 3]) 10) = some (t6, none) ∧
      [v1, v2, v3, v4].Perm [3, 4, 5, 6] := by
  have h : ([0, 1, 2, 3] : List Nat).Perm (List.range 4) := by decide
  exact seg_queue_k4_scenario (fun _ _ => [0, 1, 2, 3]) (fun _ _ => h)

end RCV
